import Mathlib

/-!
Verification of the priority-bucketed prefetch scheduler
(`src/scheduler/numericpriorityscheduler.js`) and its request-timing tracker
(`src/scheduler/timetracker.js`).

The JavaScript code is shallowly embedded: JS `Map` and `Set` become
association lists and duplicate-free lists, JS numbers used as timestamps
and priorities become `Int`, strings are processed as `List Char` with
JS-faithful helpers (`split`, `trim`, `substring`, `parseInt`), and a JS
exception escaping a handler is modelled by an explicit failure flag with the
mutations performed before the throw kept (JS exceptions do not roll back).
Ghost instrumentation (`rid` arrival identifiers and the `ghost` event log)
records append/drain/dispatch/suppress events for the temporal theorems; it
is never consulted by the embedded code itself.
-/

set_option maxHeartbeats 1000000
set_option maxRecDepth 100000
set_option linter.unusedVariables false

namespace HttpPrefetching

/-! ## JS string helpers -/

/-- One step of JS `String.prototype.split` with a string separator:
fuel-indexed so that the definition is structural (the fuel is always at
least the length of the string, which suffices for a non-empty separator). -/
def jsSplitGo (sep : List Char) : Nat → List Char → List (List Char)
  | _, [] => [[]]
  | 0, s => [s]
  | fuel+1, c :: rest =>
      if sep.isPrefixOf (c :: rest) then
        [] :: jsSplitGo sep fuel ((c :: rest).drop sep.length)
      else
        match jsSplitGo sep fuel rest with
        | [] => [[c]]
        | g :: gs => (c :: g) :: gs

/-- JS `s.split(sep)` for a non-empty separator. -/
def jsSplit (s sep : List Char) : List (List Char) :=
  jsSplitGo sep s.length s

/-- JS `String.prototype.trim` (whitespace stripped from both ends). -/
def jsTrim (s : List Char) : List Char :=
  ((s.dropWhile Char.isWhitespace).reverse.dropWhile Char.isWhitespace).reverse

/-- JS `s.substring(1, s.length - 1)`: for length at least 2 this removes the
first and last character; `substring` clamps and swaps out-of-range
arguments, which for length 0 yields the empty string and for length 1 the
string itself. -/
def stripAngleBrackets (s : List Char) : List Char :=
  if s.length ≤ 1 then s else (s.drop 1).dropLast

/-- JS `String.prototype.toLowerCase`, modelled character by character
(ASCII case folding, which is all the compared header names use). -/
def jsToLower (s : String) : String :=
  String.mk (s.data.map Char.toLower)

/-- Numeric value of the leading decimal digits. -/
def digitsToNat (ds : List Char) : Nat :=
  ds.foldl (fun a c => a * 10 + (c.toNat - 48)) 0

/-- JS `parseInt(s, 10)`: skip leading whitespace, optional sign, then the
longest prefix of decimal digits; `none` models the `NaN` result when no
digit is found. -/
def parseIntJS (s : List Char) : Option Int :=
  let t := s.dropWhile Char.isWhitespace
  match t with
  | '-' :: rest =>
      let ds := rest.takeWhile Char.isDigit
      if ds = [] then none else some (-(digitsToNat ds : Int))
  | '+' :: rest =>
      let ds := rest.takeWhile Char.isDigit
      if ds = [] then none else some ((digitsToNat ds : Int))
  | _ =>
      let ds := t.takeWhile Char.isDigit
      if ds = [] then none else some ((digitsToNat ds : Int))

/-! ## TimeTracker (`src/scheduler/timetracker.js`) -/

/-- The `PrefetchStatus` enum (`yes` / `no` / `unknown`). -/
inductive PrefetchStatus where
  | yes
  | no
  | unknown
deriving DecidableEq

/-- The string value of a `PrefetchStatus`, as the JS enum stores strings. -/
def PrefetchStatus.str : PrefetchStatus → String
  | .yes => "yes"
  | .no => "no"
  | .unknown => "unknown"

/-- JS `Map.prototype.set`: update the binding if the key is present,
otherwise append a new binding. -/
def mapSet {α : Type} (m : List (String × α)) (k : String) (v : α) :
    List (String × α) :=
  match m with
  | [] => [(k, v)]
  | (k', v') :: rest =>
      if k' = k then (k, v) :: rest else (k', v') :: mapSet rest k v

/-- JS `Map.prototype.get` (`none` models `undefined`): the value of the
first binding of the key, and `mapSet` keeps at most one binding per key. -/
def mapGet {α : Type} : List (String × α) → String → Option α
  | [], _ => none
  | (k', v) :: rest, k => if k' = k then some v else mapGet rest k

/-- JS `Map.prototype.has`. -/
def mapHas {α : Type} (m : List (String × α)) (k : String) : Bool :=
  (mapGet m k).isSome

/-- The three private maps of `TimeTracker`. -/
structure TimeTracker where
  requestTimes_ : List (String × Int)
  completeTimes_ : List (String × Int)
  prefetched_ : List (String × Bool)
deriving DecidableEq

/-- The `TimeTracker` constructor: three empty maps. -/
def TimeTracker.init : TimeTracker := ⟨[], [], []⟩

/-- `TimeTracker.registerRequest`. -/
def registerRequest (t : TimeTracker) (requestID : String)
    (requestTimestampMs : Int) (isPrefetch : Bool) : TimeTracker :=
  { requestTimes_ := mapSet t.requestTimes_ requestID requestTimestampMs,
    completeTimes_ := mapSet t.completeTimes_ requestID (-1),
    prefetched_ := mapSet t.prefetched_ requestID isPrefetch }

/-- `TimeTracker.completeRequest`: returns the fetch time together with the
updated tracker.  The early return on an unknown id leaves the tracker
untouched.  (The `getD 0` default is unreachable: the branch is guarded by
`mapHas`.) -/
def completeRequest (t : TimeTracker) (requestID : String)
    (completeTimestampMs : Int) : Int × TimeTracker :=
  if mapHas t.requestTimes_ requestID then
    let requestTime := (mapGet t.requestTimes_ requestID).getD 0
    (completeTimestampMs - requestTime,
      { t with
        completeTimes_ := mapSet t.completeTimes_ requestID completeTimestampMs })
  else
    (-1, t)

/-- `TimeTracker.isPrefetchRequest` (JS `undefined` from `Map.get` is falsy,
modelled by `getD false`). -/
def isPrefetchRequest (t : TimeTracker) (requestID : String) : PrefetchStatus :=
  if mapHas t.requestTimes_ requestID then
    if (mapGet t.prefetched_ requestID).getD false then .yes else .no
  else
    .unknown

/-- `TimeTracker.getRequestTime`. -/
def getRequestTime (t : TimeTracker) (requestID : String) : Int :=
  if mapHas t.requestTimes_ requestID then
    (mapGet t.requestTimes_ requestID).getD 0
  else
    -1

/-- `TimeTracker.getCompleteTime`. -/
def getCompleteTime (t : TimeTracker) (requestID : String) : Int :=
  if mapHas t.completeTimes_ requestID then
    (mapGet t.completeTimes_ requestID).getD 0
  else
    -1

/-! ## Scheduler data model (`src/scheduler/numericpriorityscheduler.js`) -/

/-- `NUM_PRIORITIES = 100`. -/
def NUM_PRIORITIES : Nat := 100

/-- `OUTSTANDING_REQUESTS_ALLOWED = 7`. -/
def OUTSTANDING_REQUESTS_ALLOWED : Nat := 7

/-- `DELIMETER = '|$de|'` (spelling as in the source). -/
def DELIMETER : List Char := ['|', '$', 'd', 'e', '|']

/-- `MAX_MAIN_FRAME_PRIORITY = 2`. -/
def MAX_MAIN_FRAME_PRIORITY : Int := 2

/-- The `PrefetchResource` record.  The class itself is constructed but not
defined under `src/`; its shape is fixed by every use in
`numericpriorityscheduler.js`: it is built as `new PrefetchResource(url, type)`
and read back as `resource.url` and `resource.type`. -/
structure PrefetchResource where
  url : String
  type : String
deriving DecidableEq

/-- A bucket entry: a `PrefetchResource` together with a ghost arrival
identifier `rid` (allocation order across all parsed hints).  The `rid` is
never read by the embedded code. -/
structure Entry where
  rid : Nat
  res : PrefetchResource
deriving DecidableEq

/-- The `dependencies_` 2-D array: one list of entries per priority tier. -/
abbrev Buckets : Type := List (List Entry)

/-- `dependencies[i]` (empty for an index outside the array). -/
def bucketAt (deps : Buckets) (i : Nat) : List Entry :=
  List.getD deps i []

/-- A name/value pair of an HTTP header list. -/
structure Header where
  name : String
  value : String

/-- Ghost event log entries: a resource appended to a tier by the parser, a
whole tier drained into the prefetch queue, and a queued resource dispatched
(url added to `outstandingPrefetchUrls_`) or suppressed as a late prefetch. -/
inductive Ghost where
  | appended (rid : Nat) (tier : Nat)
  | drained (tier : Nat) (entries : List Entry)
  | dispatched (rid : Nat) (url : String)
  | suppressed (rid : Nat) (url : String)
deriving DecidableEq

/-- Messages sent to the content script via `notifyContentScript_`.
`info` and `debug` messages carry only free-form log text in the source and
are modelled without their payload. -/
inductive Message where
  | info
  | debug
  | navigatedToDst (url : String)
  | prefetchResource (url resourceType : String)
  | preloadResource (url resourceType : String)
  | logTiming (url requestId : String)
      (fetchTime requestTimestampMs completeTimestampMs : Int)
      (isPrefetch : String)
deriving DecidableEq

/-- JS `Set.prototype.add` on a duplicate-free list. -/
def setAdd (s : List String) (u : String) : List String :=
  if u ∈ s then s else s ++ [u]

/-! ## Hint parsing (`parsePrefetchURLs`) -/

/-- The `url` local of the `parsePrefetchURLs` loop body:
`prefetchInfo[0].trim()` with the angle brackets removed. -/
def entryUrl (element : List Char) : List Char :=
  stripAngleBrackets (jsTrim ((jsSplit element [';']).headD []))

/-- The `priority` local of the loop body:
`parseInt(prefetchInfo[1].split('=')[1].trim(), 10)`.  `none` models both a
thrown `TypeError` (a missing segment) and a `NaN` parse result; either way
the entry produces no mutation and the loop aborts. -/
def entryPriority (element : List Char) : Option Int :=
  match (jsSplit element [';']).get? 1 with
  | none => none
  | some seg =>
      match (jsSplit seg ['=']).get? 1 with
      | none => none
      | some v => parseIntJS (jsTrim v)

/-- The `type` local of the loop body:
`prefetchInfo[2].split('=')[1].trim()` (`none` models a thrown `TypeError`). -/
def entryType (element : List Char) : Option (List Char) :=
  match (jsSplit element [';']).get? 2 with
  | none => none
  | some seg =>
      match (jsSplit seg ['=']).get? 1 with
      | none => none
      | some v => some (jsTrim v)

/-- One iteration of the `parsePrefetchURLs` loop on a single entry.
`dependencies[targetPriority].push(resource)` succeeds only when
`targetPriority = min(priority, NUM_PRIORITIES - 1)` is an index of the
array; otherwise (for example for a negative parsed priority) the indexing
yields `undefined` and `.push` throws, modelled by `none`. -/
def parseEntry (deps : Buckets) (nextRid : Nat) (g : List Ghost)
    (element : List Char) : Option (Buckets × Nat × List Ghost) :=
  let url := entryUrl element
  match entryPriority element with
  | none => none
  | some priority =>
      let targetPriority := min priority ((NUM_PRIORITIES : Int) - 1)
      match entryType element with
      | none => none
      | some ty =>
          if 0 ≤ targetPriority ∧ targetPriority.toNat < deps.length then
            let e : Entry :=
              ⟨nextRid, ⟨String.mk url, String.mk ty⟩⟩
            some (deps.set targetPriority.toNat
                    (bucketAt deps targetPriority.toNat ++ [e]),
                  nextRid + 1,
                  g ++ [.appended nextRid targetPriority.toNat])
          else
            none

/-- The `forEach` of `parsePrefetchURLs` over the split entries.  A throw in
one iteration keeps the mutations of the previous iterations and abandons
the rest of the list; the `Bool` is `false` when the loop threw. -/
def parseList (deps : Buckets) (nextRid : Nat) (g : List Ghost) :
    List (List Char) → Buckets × Nat × List Ghost × Bool
  | [] => (deps, nextRid, g, true)
  | e :: rest =>
      match parseEntry deps nextRid g e with
      | none => (deps, nextRid, g, false)
      | some (deps', rid', g') => parseList deps' rid' g' rest

/-- `parsePrefetchURLs(dependencies, prefetchStr)`. -/
def parsePrefetchURLs (deps : Buckets) (nextRid : Nat) (g : List Ghost)
    (prefetchStr : List Char) : Buckets × Nat × List Ghost × Bool :=
  parseList deps nextRid g (jsSplit prefetchStr DELIMETER)

/-! ## Scheduler state and event handlers -/

/-- The mutable fields of `NumericPriorityScheduler`, plus the ghost
instrumentation (`nextRid`, `msgs`, `ghost`). -/
structure State where
  dependencies_ : Buckets
  outstandingPrefetchUrls_ : List String
  timeTracker : TimeTracker
  requestedURLs_ : List String
  lpUrl : String
  navigatedToDst_ : Bool
  queuedPrefetches_ : List Entry
  curFetchPriority_ : Int
  didInit_ : Bool
  initializedContentScript_ : Bool
  nextRid : Nat
  msgs : List Message
  ghost : List Ghost
deriving DecidableEq

/-- The `NumericPriorityScheduler` constructor. -/
def initState : State :=
  { dependencies_ := List.replicate NUM_PRIORITIES [],
    outstandingPrefetchUrls_ := [],
    timeTracker := TimeTracker.init,
    requestedURLs_ := [],
    lpUrl := "",
    navigatedToDst_ := false,
    queuedPrefetches_ := [],
    curFetchPriority_ := -1,
    didInit_ := false,
    initializedContentScript_ := false,
    nextRid := 0,
    msgs := [],
    ghost := [] }

/-- Append one message sent through `notifyContentScript_`. -/
def notify (s : State) (m : Message) : State :=
  { s with msgs := s.msgs ++ [m] }

/-- `fetchDependency(resource, priority)`. -/
def fetchDependency (s : State) (resource : Entry) (priority : Int) : State :=
  let url := resource.res.url
  if url ∈ s.requestedURLs_ then
    { s with
      msgs := s.msgs ++ [.logTiming url "" (-1) (-1) (-1) "late"],
      ghost := s.ghost ++ [.suppressed resource.rid url] }
  else
    let preload := if priority > MAX_MAIN_FRAME_PRIORITY then false
                   else s.navigatedToDst_
    let m := if preload then Message.preloadResource url resource.res.type
             else Message.prefetchResource url resource.res.type
    { s with
      msgs := s.msgs ++ [m],
      ghost := s.ghost ++ [.dispatched resource.rid url],
      outstandingPrefetchUrls_ := setAdd s.outstandingPrefetchUrls_ url }

/-- The dispatch `while` loop at the end of `handleFetchCompleted`,
structurally recursive on the queue (`fetchDependency` never touches
`queuedPrefetches_`, so the extra list argument stays equal to the queue
field at every call). -/
def dispatchGo : State → List Entry → State
  | s, [] => s
  | s, dependency :: rest =>
      if s.outstandingPrefetchUrls_.length < OUTSTANDING_REQUESTS_ALLOWED then
        dispatchGo
          (fetchDependency { s with queuedPrefetches_ := rest } dependency
            s.curFetchPriority_)
          rest
      else s

/-- The scan for the first non-empty priority bucket. -/
def findFirstNonEmpty : List (List Entry) → Option Nat
  | [] => none
  | b :: rest =>
      if b.length > 0 then some 0
      else (findFirstNonEmpty rest).map (fun i => i + 1)

/-- The `nextPriority` local of `handleFetchCompleted` (`-1` when every
bucket is empty). -/
def findNextPriority (deps : Buckets) : Int :=
  match findFirstNonEmpty deps with
  | some i => (i : Int)
  | none => -1

/-- `handleFetchCompleted(fetchedURL)`: capacity check, batch formation
(draining the whole first non-empty tier into `queuedPrefetches_`), then the
dispatch loop.  The drain `while` loop moves the bucket's entries
one-by-one, front to back, onto the queue; its net effect is appending the
whole bucket. -/
def handleFetchCompleted (s : State) (fetchedURL : String) : State :=
  let s := notify s .info
  if s.outstandingPrefetchUrls_.length ≥ OUTSTANDING_REQUESTS_ALLOWED then s
  else
    let nextPriority := findNextPriority s.dependencies_
    let s :=
      if s.outstandingPrefetchUrls_.length = 0 ∧ nextPriority ≠ -1 ∧
          s.queuedPrefetches_.length = 0 then
        let np := nextPriority.toNat
        let tier := bucketAt s.dependencies_ np
        { s with
          dependencies_ := s.dependencies_.set np [],
          queuedPrefetches_ := s.queuedPrefetches_ ++ tier,
          curFetchPriority_ := nextPriority,
          ghost := s.ghost ++ [.drained np tier] }
      else s
    let s := notify s .info
    dispatchGo s s.queuedPrefetches_

/-- The header scan of `isPrefetchRequest_`. -/
def isPrefetchHeaders (requestHeaders : List Header) : Bool :=
  requestHeaders.any (fun element =>
    jsToLower element.name == "purpose" && jsToLower element.value == "prefetch")

/-- `onSendHeaders_(details)`. -/
def onSendHeaders (s : State) (url requestId : String) (timeStamp : Int)
    (requestHeaders : List Header) : State :=
  let isPrefetch := isPrefetchHeaders requestHeaders
  let s := { s with
    timeTracker := registerRequest s.timeTracker requestId timeStamp isPrefetch }
  let s :=
    if url = s.lpUrl then
      { notify s (.navigatedToDst s.lpUrl) with navigatedToDst_ := true }
    else s
  { s with requestedURLs_ := setAdd s.requestedURLs_ url }

/-- The `forEach` over the response headers in `onHeadersReceived_`.  A
parse exception aborts the remaining headers; the `Bool` is `false` when
that happened. -/
def processResponseHeaders (s : State) : List Header → State × Bool
  | [] => (s, true)
  | element :: rest =>
      if jsToLower element.name == "x-prefetch" then
        let r := parsePrefetchURLs s.dependencies_ s.nextRid s.ghost
          element.value.data
        let s := { s with
          dependencies_ := r.1, nextRid := r.2.1, ghost := r.2.2.1 }
        if r.2.2.2 then processResponseHeaders s rest else (s, false)
      else if jsToLower element.name == "x-lp-url" then
        processResponseHeaders { s with lpUrl := element.value } rest
      else
        processResponseHeaders s rest

/-- `onHeadersReceived_(details)` (its return value, the unchanged headers,
is dropped by the embedding). -/
def onHeadersReceived (s : State) (url : String)
    (responseHeaders : List Header) : State × Bool :=
  processResponseHeaders (notify s .info) responseHeaders

/-- `onFetchCompleted_(details)`: the shared completion path of
`onFetchSucceed_` and `onErrorOccurred_`. -/
def onFetchCompleted (s : State) (url requestId : String) (timeStamp : Int) :
    State :=
  let s := { s with
    outstandingPrefetchUrls_ := s.outstandingPrefetchUrls_.erase url }
  let s := handleFetchCompleted s url
  let s := notify s .debug
  let r := completeRequest s.timeTracker requestId timeStamp
  let fetchTime := r.1
  let s := { s with timeTracker := r.2 }
  notify s (.logTiming url requestId fetchTime
    (getRequestTime s.timeTracker requestId)
    (getCompleteTime s.timeTracker requestId)
    (isPrefetchRequest s.timeTracker requestId).str)

/-- `onFetchSucceed_(details)`. -/
def onFetchSucceed (s : State) (url requestId : String) (timeStamp : Int) :
    State :=
  onFetchCompleted (notify s .info) url requestId timeStamp

/-- `onErrorOccurred_(details)`. -/
def onErrorOccurred (s : State) (url requestId : String) (timeStamp : Int) :
    State :=
  onFetchCompleted (notify s .info) url requestId timeStamp

/-- The `CONTENT_SCRIPT_INIT` branch of `onContentMessage_`. -/
def onContentScriptInit (s : State) : State :=
  if ¬ s.initializedContentScript_ then
    let s := handleFetchCompleted s "INIT"
    { s with initializedContentScript_ := true }
  else s

/-- `run()`: idempotent initialization (listener registration is the
environment's side; only the flag and the log message are state). -/
def run (s : State) : State :=
  if ¬ s.didInit_ then
    { notify s .info with didInit_ := true }
  else s

/-- The network / agent events delivered to the scheduler. -/
inductive Event where
  | sendHeaders (url requestId : String) (timeStamp : Int)
      (requestHeaders : List Header)
  | headersReceived (url : String) (responseHeaders : List Header)
  | fetchSucceeded (url requestId : String) (timeStamp : Int)
  | errorOccurred (url requestId : String) (timeStamp : Int)
  | contentScriptInit
  | start

/-- One event handled to completion. -/
def step (s : State) : Event → State
  | .sendHeaders url requestId ts hs => onSendHeaders s url requestId ts hs
  | .headersReceived url hs => (onHeadersReceived s url hs).1
  | .fetchSucceeded url requestId ts => onFetchSucceed s url requestId ts
  | .errorOccurred url requestId ts => onErrorOccurred s url requestId ts
  | .contentScriptInit => onContentScriptInit s
  | .start => run s

/-- A whole event sequence handled in arrival order. -/
def runTrace (s : State) (events : List Event) : State :=
  events.foldl step s

/-! ## Derived notions used by the specifications -/

/-- The operations of the `TimeTracker` interface that mutate it (these are
the only two the scheduler ever calls). -/
inductive TrackerOp where
  | register (id : String) (ts : Int) (isPrefetch : Bool)
  | complete (id : String) (ts : Int)

/-- Apply one tracker operation. -/
def applyOp (t : TimeTracker) : TrackerOp → TimeTracker
  | .register id ts b => registerRequest t id ts b
  | .complete id ts => (completeRequest t id ts).2

/-- Apply a sequence of tracker operations to the fresh tracker. -/
def applyOps (ops : List TrackerOp) : TimeTracker :=
  ops.foldl applyOp TimeTracker.init

/-- The arrival id of a ghost dispatch record. -/
def dispatchedRid : Ghost → Option Nat
  | .dispatched r _ => some r
  | _ => none

/-- The arrival id of a ghost dispatch or suppression record (one such
record is written each time the dispatch loop pops a queued resource). -/
def handledRid : Ghost → Option Nat
  | .dispatched r _ => some r
  | .suppressed r _ => some r
  | _ => none

/-- The arrival id of a ghost append record. -/
def appendedRid : Ghost → Option Nat
  | .appended r _ => some r
  | _ => none

/-- Arrival ids of all dispatched resources, in dispatch order. -/
def dispatchedRids (g : List Ghost) : List Nat :=
  g.filterMap dispatchedRid

/-- Arrival ids of all popped (dispatched or suppressed) resources, in pop
order. -/
def handledRids (g : List Ghost) : List Nat :=
  g.filterMap handledRid

/-- Arrival ids of all parsed resources, in parse order. -/
def appendedRids (g : List Ghost) : List Nat :=
  g.filterMap appendedRid

/-- Arrival ids of every resource sitting in some priority bucket. -/
def bucketsRids (deps : Buckets) : List Nat :=
  (deps.map (fun b => b.map Entry.rid)).flatten

/-- Every arrival id owned by a (buckets, queue, ghost-log) triple: still
bucketed, queued for dispatch, or already popped. -/
def ownedRids (deps : Buckets) (queued : List Entry) (g : List Ghost) :
    List Nat :=
  bucketsRids deps ++ queued.map Entry.rid ++ handledRids g

/-- Every arrival id owned by the scheduler state. -/
def allRids (s : State) : List Nat :=
  ownedRids s.dependencies_ s.queuedPrefetches_ s.ghost

/-- A concrete state whose outstanding set is at capacity, with work still
pending in the queue and in a bucket. -/
def saturatedState : State :=
  { initState with
    outstandingPrefetchUrls_ := ["a", "b", "c", "d", "e", "f", "g"],
    queuedPrefetches_ := [⟨0, ⟨"h", "script"⟩⟩],
    dependencies_ := (List.replicate NUM_PRIORITIES []).set 3
      [⟨1, ⟨"i", "style"⟩⟩],
    curFetchPriority_ := 0 }

/-- A concrete state whose batch queue holds eight resources that share a
single url. -/
def sameUrlEight : State :=
  { initState with
    queuedPrefetches_ := (List.range 8).map (fun i => ⟨i, ⟨"u", "script"⟩⟩),
    curFetchPriority_ := 0 }

/-- A hint header naming one tier-0 resource `a` and one tier-5 resource
`c`. -/
def c4Hint : Header :=
  ⟨"x-prefetch", "<a>;priority=0;type=script|$de|<c>;priority=5;type=image"⟩

/-- Prefix trace: the hint arrives, then the browser itself requests `a`
(so `a` lands in `requestedURLs_` before its hinted dispatch). -/
def c4Pre : List Event :=
  [.headersReceived "p" [c4Hint], .sendHeaders "a" "r1" 10 []]

/-- Suffix trace: the agent becomes ready (first refill pass), then an
unrelated request completes (second refill pass). -/
def c4Suf : List Event :=
  [.contentScriptInit, .errorOccurred "x" "r2" 20]

/-- Trace whose hint header parses two resources into the same tier 3, then
lets the agent-ready refill dispatch them. -/
def c5Events : List Event :=
  [.headersReceived "p"
    [⟨"x-prefetch", "<a>;priority=3;type=script|$de|<b>;priority=3;type=style"⟩],
   .contentScriptInit]

/-- The ghost record `fetchDependency` writes for a popped resource:
suppressed when its url was already requested by the browser, dispatched
otherwise. -/
def handledGhost (req : List String) (e : Entry) : Ghost :=
  if e.res.url ∈ req then .suppressed e.rid e.res.url
  else .dispatched e.rid e.res.url

/-- `r1` occurs strictly before `r2` among the arrival ids of `l`. -/
def ridBefore (r1 r2 : Nat) (l : List Entry) : Prop :=
  ∃ l1 e1 l2 e2 l3, l = l1 ++ e1 :: l2 ++ e2 :: l3 ∧
    e1.rid = r1 ∧ e2.rid = r2

/-- Structural well-formedness of the (buckets, queue, ghost-log, counter)
part of a scheduler state: every owned arrival id is unique and below the
allocation counter, every id below the counter is owned, each bucketed
resource sits in the tier its ghost append record names, and no id is
appended to two tiers. -/
structure WFq (deps : Buckets) (queued : List Entry) (g : List Ghost)
    (nextRid : Nat) : Prop where
  ridsNodup : (ownedRids deps queued g).Nodup
  ridsLt : ∀ r ∈ ownedRids deps queued g, r < nextRid
  allBelow : ∀ r < nextRid, r ∈ ownedRids deps queued g
  located : ∀ q, ∀ e ∈ bucketAt deps q, Ghost.appended e.rid q ∈ g
  appendedOnce : ∀ r q q', Ghost.appended r q ∈ g →
    Ghost.appended r q' ∈ g → q = q'
  appendedLt : ∀ r q, Ghost.appended r q ∈ g → r < nextRid

/-- Well-formedness of a scheduler state. -/
def WF (s : State) : Prop :=
  WFq s.dependencies_ s.queuedPrefetches_ s.ghost s.nextRid

/-- The pairwise progress relation behind FIFO dispatch inside one tier:
given `r1 < r2` (so the resource with id `r1` was parsed first), either `r2`
is not allocated yet, or the two resources sit in the expected places
(`r1` never behind `r2`), or `r1` was already popped at a point where `r2`
was not, or one of them was parsed into a tier other than `p` (which
discharges the hypotheses of the FIFO statement). -/
def Fifoq (p r1 r2 : Nat) (deps : Buckets) (queued : List Entry)
    (g : List Ghost) (nextRid : Nat) : Prop :=
  nextRid ≤ r2 ∨
  ridBefore r1 r2 (bucketAt deps p) ∨
  ((∃ e ∈ queued, e.rid = r1) ∧ (∃ e ∈ bucketAt deps p, e.rid = r2)) ∨
  ridBefore r1 r2 queued ∨
  (∃ g1 g2, g = g1 ++ g2 ∧ r1 ∈ handledRids g1 ∧ r2 ∉ handledRids g1) ∨
  (∃ q, q ≠ p ∧ (Ghost.appended r1 q ∈ g ∨ Ghost.appended r2 q ∈ g))

/-- The progress relation instantiated at a scheduler state. -/
def FifoInv (p r1 r2 : Nat) (s : State) : Prop :=
  Fifoq p r1 r2 s.dependencies_ s.queuedPrefetches_ s.ghost s.nextRid

/-! ## Map lemmas -/

theorem mapGet_mapSet {α : Type} (m : List (String × α)) (k k' : String)
    (v : α) :
    mapGet (mapSet m k v) k' = if k' = k then some v else mapGet m k' := by
  induction m with
  | nil =>
      by_cases h : k' = k
      · subst h; simp [mapSet, mapGet]
      · have h' : ¬ k = k' := fun e => h e.symm
        simp [mapSet, mapGet, h, h']
  | cons p rest ih =>
      obtain ⟨a, b⟩ := p
      by_cases hak : a = k
      · subst hak
        by_cases h : a = k'
        · subst h; simp [mapSet, mapGet]
        · have h' : ¬ k' = a := fun e => h e.symm
          simp [mapSet, mapGet, h, h']
      · by_cases h : a = k'
        · have hk'k : ¬ k' = k := fun e => hak (h.trans e)
          simp [mapSet, mapGet, hak, h, hk'k]
        · have h' : ¬ k' = a := fun e => h e.symm
          simp [mapSet, mapGet, hak, h, h', ih]

theorem mapHas_mapSet {α : Type} (m : List (String × α)) (k k' : String)
    (v : α) :
    mapHas (mapSet m k v) k' = (k' == k || mapHas m k') := by
  by_cases h : k' = k <;> simp [mapHas, mapGet_mapSet, h]

/-! ## TimeTracker theorems -/

/-- **C2**.  Completing a registered request returns the elapsed time
`t1 - t0` and records `t1` as the completion timestamp; completing an id
that was never registered returns `-1` and leaves the tracker state
entirely unchanged. -/
theorem completeRequest_correct (t u : TimeTracker) (id : String)
    (t0 t1 : Int) (isPrefetch : Bool)
    (hu : mapHas u.requestTimes_ id = false) :
    (completeRequest (registerRequest t id t0 isPrefetch) id t1).1 = t1 - t0 ∧
    getCompleteTime (completeRequest (registerRequest t id t0 isPrefetch) id t1).2
      id = t1 ∧
    completeRequest u id t1 = (-1, u) := by
  refine ⟨?_, ?_, ?_⟩
  · simp [completeRequest, registerRequest, mapHas_mapSet, mapGet_mapSet, mapHas]
  · simp [completeRequest, registerRequest, mapHas_mapSet, mapGet_mapSet,
      getCompleteTime, mapHas]
  · simp [completeRequest, hu]

/-- Witness for C2 at a concrete tracker, id and timestamps. -/
theorem completeRequest_correct_witness :
    (completeRequest (registerRequest TimeTracker.init "id1" 10 true) "id1"
        25).1 = 25 - 10 ∧
    getCompleteTime (completeRequest
        (registerRequest TimeTracker.init "id1" 10 true) "id1" 25).2 "id1" =
      25 ∧
    completeRequest TimeTracker.init "id1" 25 = (-1, TimeTracker.init) :=
  completeRequest_correct TimeTracker.init TimeTracker.init "id1" 10 25 true
    (by decide)

theorem sameKeys_applyOp (t : TimeTracker) (op : TrackerOp)
    (h : ∀ k, mapHas t.requestTimes_ k = mapHas t.completeTimes_ k ∧
      mapHas t.requestTimes_ k = mapHas t.prefetched_ k) (k : String) :
    mapHas (applyOp t op).requestTimes_ k =
      mapHas (applyOp t op).completeTimes_ k ∧
    mapHas (applyOp t op).requestTimes_ k =
      mapHas (applyOp t op).prefetched_ k := by
  obtain ⟨h1, h2⟩ := h k
  cases op with
  | register id ts b =>
      constructor
      · simp only [applyOp, registerRequest, mapHas_mapSet]
        rw [h1]
      · simp only [applyOp, registerRequest, mapHas_mapSet]
        rw [h2]
  | complete id ts =>
      by_cases hid : mapHas t.requestTimes_ id
      · constructor
        · by_cases hk : k = id
          · subst hk
            simp [applyOp, completeRequest, hid, mapHas_mapSet]
          · simp [applyOp, completeRequest, hid, mapHas_mapSet, hk, h1]
        · simp [applyOp, completeRequest, hid, h2]
      · constructor
        · simpa [applyOp, completeRequest, hid] using h1
        · simpa [applyOp, completeRequest, hid] using h2

theorem sameKeys_applyOps (ops : List TrackerOp) :
    ∀ k, mapHas (applyOps ops).requestTimes_ k =
        mapHas (applyOps ops).completeTimes_ k ∧
      mapHas (applyOps ops).requestTimes_ k =
        mapHas (applyOps ops).prefetched_ k := by
  suffices h : ∀ (l : List TrackerOp) (t : TimeTracker),
      (∀ k, mapHas t.requestTimes_ k = mapHas t.completeTimes_ k ∧
        mapHas t.requestTimes_ k = mapHas t.prefetched_ k) →
      ∀ k, mapHas (l.foldl applyOp t).requestTimes_ k =
          mapHas (l.foldl applyOp t).completeTimes_ k ∧
        mapHas (l.foldl applyOp t).requestTimes_ k =
          mapHas (l.foldl applyOp t).prefetched_ k by
    exact h ops TimeTracker.init (fun k => by simp [TimeTracker.init, mapHas, mapGet])
  intro l
  induction l with
  | nil => intro t ht k; exact ht k
  | cons op rest ih =>
      intro t ht k
      exact ih (applyOp t op) (fun k' => sameKeys_applyOp t op ht k') k

/-- **C9**.  After any sequence of tracker operations the three maps
`requestTimes_`, `completeTimes_` and `prefetched_` have identical key
sets, and no operation ever removes a key; hence the `requestTimes_.has`
guard used by `completeRequest`, `isPrefetchRequest` and `getRequestTime`
is equivalent to membership in any of the three maps. -/
theorem tracker_keySets_aligned (ops : List TrackerOp) (k : String) :
    (mapHas (applyOps ops).requestTimes_ k =
       mapHas (applyOps ops).completeTimes_ k ∧
     mapHas (applyOps ops).requestTimes_ k =
       mapHas (applyOps ops).prefetched_ k) ∧
    (∀ op, mapHas (applyOps ops).requestTimes_ k = true →
       mapHas (applyOp (applyOps ops) op).requestTimes_ k = true) := by
  refine ⟨sameKeys_applyOps ops k, ?_⟩
  intro op h
  cases op with
  | register id ts b =>
      simp [applyOp, registerRequest, mapHas_mapSet, h]
  | complete id ts =>
      by_cases hid : mapHas (applyOps ops).requestTimes_ id <;>
        simp [applyOp, completeRequest, hid, h]

/-- Witness for C9 at a concrete operation sequence. -/
theorem tracker_keySets_aligned_witness :
    mapHas (applyOp (applyOps [TrackerOp.register "a" 3 false])
      (TrackerOp.complete "a" 9)).requestTimes_ "a" = true :=
  (tracker_keySets_aligned [TrackerOp.register "a" 3 false] "a").2
    (TrackerOp.complete "a" 9) (by decide)

/-! ## Dispatch-time theorems (C6, C7, C8) -/

/-- **C7**.  Dispatching a resource whose url the browser already requested
emits exactly one LATE-classified timing-log message with `-1` sentinel
timestamps, emits no prefetch or preload directive, and leaves every other
field — in particular `outstandingPrefetchUrls_` — unchanged. -/
theorem fetchDependency_late (s : State) (resource : Entry) (priority : Int)
    (h : resource.res.url ∈ s.requestedURLs_) :
    fetchDependency s resource priority =
      { s with
        msgs := s.msgs ++
          [.logTiming resource.res.url "" (-1) (-1) (-1) "late"],
        ghost := s.ghost ++ [.suppressed resource.rid resource.res.url] } := by
  simp [fetchDependency, h]

/-- Witness for C7 at a concrete state and resource. -/
theorem fetchDependency_late_witness :
    fetchDependency { initState with requestedURLs_ := ["u"] }
        ⟨0, ⟨"u", "script"⟩⟩ 0 =
      { { initState with requestedURLs_ := ["u"] } with
        msgs := [.logTiming "u" "" (-1) (-1) (-1) "late"],
        ghost := [.suppressed 0 "u"] } := by
  have h := fetchDependency_late { initState with requestedURLs_ := ["u"] }
    ⟨0, ⟨"u", "script"⟩⟩ 0 (by decide)
  simpa [initState] using h

/-- **C6**.  For a dispatch that is not suppressed, the emitted directive is
PRELOAD exactly when the browser has navigated to the landing page and the
current dispatch priority is at most `MAX_MAIN_FRAME_PRIORITY = 2`; in every
other case it is PREFETCH. -/
theorem fetchDependency_directive (s : State) (resource : Entry)
    (priority : Int) (h : resource.res.url ∉ s.requestedURLs_) :
    (fetchDependency s resource priority).msgs =
      s.msgs ++
        [if s.navigatedToDst_ = true ∧ priority ≤ MAX_MAIN_FRAME_PRIORITY then
           Message.preloadResource resource.res.url resource.res.type
         else
           Message.prefetchResource resource.res.url resource.res.type] := by
  by_cases hp : priority > MAX_MAIN_FRAME_PRIORITY
  · have hp' : ¬ priority ≤ MAX_MAIN_FRAME_PRIORITY := not_le.mpr hp
    simp [fetchDependency, h, hp, hp']
  · by_cases hn : s.navigatedToDst_ <;>
      simp [fetchDependency, h, hp, hn, not_lt.mp hp]

/-- Witness for C6: after navigation, a tier-0 dispatch is a PRELOAD. -/
theorem fetchDependency_directive_witness :
    (fetchDependency { initState with navigatedToDst_ := true }
        ⟨0, ⟨"u", "script"⟩⟩ 0).msgs =
      [Message.preloadResource "u" "script"] := by
  have h := fetchDependency_directive { initState with navigatedToDst_ := true }
    ⟨0, ⟨"u", "script"⟩⟩ 0 (by decide)
  simpa [initState, MAX_MAIN_FRAME_PRIORITY] using h

/-- **C8**.  A refill pass entered with the outstanding set at (or beyond)
capacity returns immediately: the priority buckets, the prefetch queue, the
outstanding set, the current fetch priority and the requested-url set are
all left unchanged. -/
theorem handleFetchCompleted_atCapacity (s : State) (fetchedURL : String)
    (h : OUTSTANDING_REQUESTS_ALLOWED ≤ s.outstandingPrefetchUrls_.length) :
    (handleFetchCompleted s fetchedURL).dependencies_ = s.dependencies_ ∧
    (handleFetchCompleted s fetchedURL).queuedPrefetches_ =
      s.queuedPrefetches_ ∧
    (handleFetchCompleted s fetchedURL).outstandingPrefetchUrls_ =
      s.outstandingPrefetchUrls_ ∧
    (handleFetchCompleted s fetchedURL).curFetchPriority_ =
      s.curFetchPriority_ ∧
    (handleFetchCompleted s fetchedURL).requestedURLs_ = s.requestedURLs_ := by
  simp [handleFetchCompleted, notify, h]

/-- Witness for C8 at a concrete saturated state. -/
theorem handleFetchCompleted_atCapacity_witness :
    (handleFetchCompleted saturatedState "u").dependencies_ =
      saturatedState.dependencies_ ∧
    (handleFetchCompleted saturatedState "u").queuedPrefetches_ =
      saturatedState.queuedPrefetches_ ∧
    (handleFetchCompleted saturatedState "u").outstandingPrefetchUrls_ =
      saturatedState.outstandingPrefetchUrls_ ∧
    (handleFetchCompleted saturatedState "u").curFetchPriority_ =
      saturatedState.curFetchPriority_ ∧
    (handleFetchCompleted saturatedState "u").requestedURLs_ =
      saturatedState.requestedURLs_ :=
  handleFetchCompleted_atCapacity saturatedState "u" (by decide)

/-! ## Hint-parser theorems (C3) -/

/-- Counterexample to C3 as stated: on the well-formed entry
`"<a>; priority=-5; type=script"` the parsed priority is `-5`, the
`Math.min` clamp has no lower bound, so `dependencies[-5].push` throws a
`TypeError` (`none` / failure flag `false`): nothing is appended to any
slot and the parser does raise. -/
theorem parse_negative_priority_throws :
    entryPriority "<a>; priority=-5; type=script".data = some (-5) ∧
    parsePrefetchURLs (List.replicate NUM_PRIORITIES []) 0 []
        "<a>; priority=-5; type=script".data =
      (List.replicate NUM_PRIORITIES [], 0, [], false) := by
  constructor
  · decide
  · decide

/-- **C3** (amended).  The parsed priority is clamped only from above, to
`NUM_PRIORITIES - 1`: a well-formed entry whose parsed priority `p` is
non-negative is appended to slot `min p 99` (an index between 0 and 99) and
the parser does not raise, while a well-formed entry with a negative parsed
priority (such as `priority=-5`) indexes the bucket array out of range and
the parser raises. -/
theorem parseEntry_clamped (deps : Buckets) (nextRid : Nat) (g : List Ghost)
    (element : List Char) (p : Int) (ty : List Char)
    (hlen : deps.length = NUM_PRIORITIES)
    (hp : entryPriority element = some p)
    (hty : entryType element = some ty) :
    (0 ≤ p →
      parseEntry deps nextRid g element =
        some (deps.set (min p ((NUM_PRIORITIES : Int) - 1)).toNat
                (bucketAt deps (min p ((NUM_PRIORITIES : Int) - 1)).toNat ++
                  [⟨nextRid, ⟨String.mk (entryUrl element), String.mk ty⟩⟩]),
              nextRid + 1,
              g ++ [.appended nextRid
                (min p ((NUM_PRIORITIES : Int) - 1)).toNat]) ∧
      (min p ((NUM_PRIORITIES : Int) - 1)).toNat ≤ NUM_PRIORITIES - 1) ∧
    (p < 0 → parseEntry deps nextRid g element = none) := by
  constructor
  · intro hpos
    have hguard : 0 ≤ min p ((NUM_PRIORITIES : Int) - 1) ∧
        (min p ((NUM_PRIORITIES : Int) - 1)).toNat < deps.length := by
      rw [hlen]
      unfold NUM_PRIORITIES
      omega
    constructor
    · simp only [parseEntry, hp, hty, if_pos hguard]
    · unfold NUM_PRIORITIES
      omega
  · intro hneg
    have hguard : ¬ (0 ≤ min p ((NUM_PRIORITIES : Int) - 1) ∧
        (min p ((NUM_PRIORITIES : Int) - 1)).toNat < deps.length) := by
      unfold NUM_PRIORITIES
      omega
    simp only [parseEntry, hp, hty, if_neg hguard]

/-- Witness for C3 (amended); also checks the spec's clamping example: a
priority of 150 lands in tier 99. -/
theorem parseEntry_clamped_witness :
    parseEntry (List.replicate NUM_PRIORITIES []) 0 []
        "<a>;priority=150;type=script".data =
      some ((List.replicate NUM_PRIORITIES []).set 99
              [⟨0, ⟨"a", "script"⟩⟩],
            1, [.appended 0 99]) := by
  have h := (parseEntry_clamped (List.replicate NUM_PRIORITIES []) 0 []
    "<a>;priority=150;type=script".data 150 "script".data (by decide)
    (by decide) (by decide)).1 (by decide)
  have he : entryUrl "<a>;priority=150;type=script".data = "a".data := by
    decide
  rw [h.1, he]
  decide

/-! ## Outstanding set is keyed by url (C10) -/

/-- **C10**.  The concurrency ceiling bounds distinct in-flight urls, not
emitted directives: dispatching a queued resource whose url is already
outstanding (and not in the requested set) emits another directive while
leaving the outstanding set unchanged, and a single refill pass over a
queue of eight resources sharing one url dispatches all eight even though
`OUTSTANDING_REQUESTS_ALLOWED = 7`. -/
theorem outstanding_keyed_by_url (s : State) (resource : Entry)
    (priority : Int)
    (h1 : resource.res.url ∈ s.outstandingPrefetchUrls_)
    (h2 : resource.res.url ∉ s.requestedURLs_) :
    ((fetchDependency s resource priority).outstandingPrefetchUrls_ =
        s.outstandingPrefetchUrls_ ∧
      ((fetchDependency s resource priority).msgs =
          s.msgs ++
            [Message.prefetchResource resource.res.url resource.res.type] ∨
        (fetchDependency s resource priority).msgs =
          s.msgs ++
            [Message.preloadResource resource.res.url resource.res.type])) ∧
    (dispatchedRids (handleFetchCompleted sameUrlEight "INIT").ghost =
        [0, 1, 2, 3, 4, 5, 6, 7] ∧
      (handleFetchCompleted sameUrlEight "INIT").outstandingPrefetchUrls_ =
        ["u"] ∧
      (handleFetchCompleted sameUrlEight "INIT").queuedPrefetches_ = []) := by
  refine ⟨⟨?_, ?_⟩, ?_, ?_, ?_⟩
  · simp [fetchDependency, h2, setAdd, h1]
  · by_cases hpre : (if priority > MAX_MAIN_FRAME_PRIORITY then false
        else s.navigatedToDst_) = true
    · right; simp [fetchDependency, h2, hpre]
    · left; simp [fetchDependency, h2, hpre]
  · decide
  · decide
  · decide

/-- Witness for C10 at a concrete state. -/
theorem outstanding_keyed_by_url_witness :
    (fetchDependency { initState with outstandingPrefetchUrls_ := ["u"] }
        ⟨1, ⟨"u", "script"⟩⟩ 5).outstandingPrefetchUrls_ = ["u"] :=
  ((outstanding_keyed_by_url { initState with outstandingPrefetchUrls_ := ["u"] }
    ⟨1, ⟨"u", "script"⟩⟩ 5 (by decide) (by decide)).1).1

/-! ## Admission invariant (C1) -/

theorem setAdd_length (l : List String) (u : String) :
    (setAdd l u).length ≤ l.length + 1 := by
  unfold setAdd
  split <;> simp

theorem fetchDependency_outstanding_le (s : State) (e : Entry) (p : Int) :
    (fetchDependency s e p).outstandingPrefetchUrls_.length ≤
      s.outstandingPrefetchUrls_.length + 1 := by
  by_cases h : e.res.url ∈ s.requestedURLs_
  · simp [fetchDependency, h]
  · simpa [fetchDependency, h] using
      setAdd_length s.outstandingPrefetchUrls_ e.res.url

theorem dispatchGo_outstanding_le (q : List Entry) : ∀ s : State,
    s.outstandingPrefetchUrls_.length ≤ OUTSTANDING_REQUESTS_ALLOWED →
    (dispatchGo s q).outstandingPrefetchUrls_.length ≤
      OUTSTANDING_REQUESTS_ALLOWED := by
  induction q with
  | nil => intro s h; exact h
  | cons d rest ih =>
      intro s h
      simp only [dispatchGo]
      split
      · rename_i hlt
        apply ih
        have hfd := fetchDependency_outstanding_le
          { s with queuedPrefetches_ := rest } d s.curFetchPriority_
        simp only at hfd
        simp only [OUTSTANDING_REQUESTS_ALLOWED] at hlt ⊢
        omega
      · exact h

theorem handleFetchCompleted_outstanding_le (s : State) (u : String)
    (h : s.outstandingPrefetchUrls_.length ≤ OUTSTANDING_REQUESTS_ALLOWED) :
    (handleFetchCompleted s u).outstandingPrefetchUrls_.length ≤
      OUTSTANDING_REQUESTS_ALLOWED := by
  simp only [handleFetchCompleted, notify]
  split
  · simpa using h
  · apply dispatchGo_outstanding_le
    split <;> simpa using h

theorem processResponseHeaders_outstanding (hs : List Header) : ∀ s : State,
    ((processResponseHeaders s hs).1).outstandingPrefetchUrls_ =
      s.outstandingPrefetchUrls_ := by
  induction hs with
  | nil => intro s; rfl
  | cons e rest ih =>
      intro s
      simp only [processResponseHeaders]
      split
      · split
        · rw [ih]
        · rfl
      · split
        · rw [ih]
        · rw [ih]

theorem onFetchCompleted_outstanding_le (s : State) (url requestId : String)
    (ts : Int)
    (h : s.outstandingPrefetchUrls_.length ≤ OUTSTANDING_REQUESTS_ALLOWED) :
    (onFetchCompleted s url requestId ts).outstandingPrefetchUrls_.length ≤
      OUTSTANDING_REQUESTS_ALLOWED := by
  simp only [onFetchCompleted, notify]
  have herase : (s.outstandingPrefetchUrls_.erase url).length ≤
      OUTSTANDING_REQUESTS_ALLOWED :=
    le_trans (List.length_erase_le _ _) h
  have hh := handleFetchCompleted_outstanding_le
    { s with outstandingPrefetchUrls_ := s.outstandingPrefetchUrls_.erase url }
    url herase
  simpa using hh

theorem step_outstanding_le (ev : Event) (s : State)
    (h : s.outstandingPrefetchUrls_.length ≤ OUTSTANDING_REQUESTS_ALLOWED) :
    (step s ev).outstandingPrefetchUrls_.length ≤
      OUTSTANDING_REQUESTS_ALLOWED := by
  cases ev with
  | sendHeaders url requestId ts hs =>
      simp only [step, onSendHeaders, notify]
      split <;> simpa using h
  | headersReceived url hs =>
      simp only [step, onHeadersReceived]
      rw [processResponseHeaders_outstanding]
      simpa [notify] using h
  | fetchSucceeded url requestId ts =>
      simp only [step, onFetchSucceed, notify]
      exact onFetchCompleted_outstanding_le _ url requestId ts (by simpa using h)
  | errorOccurred url requestId ts =>
      simp only [step, onErrorOccurred, notify]
      exact onFetchCompleted_outstanding_le _ url requestId ts (by simpa using h)
  | contentScriptInit =>
      simp only [step, onContentScriptInit]
      split
      · simpa using handleFetchCompleted_outstanding_le s "INIT" h
      · exact h
  | start =>
      simp only [step, run, notify]
      split <;> simpa using h

/-- **C1**.  In every reachable scheduler state — after any sequence of
start, header-sent, headers-received, hint-parse, completion, error and
agent-ready events — the outstanding prefetch set holds at most
`OUTSTANDING_REQUESTS_ALLOWED = 7` urls: the dispatch loop adds a url only
after checking that the size is strictly below the ceiling. -/
theorem outstanding_bounded (events : List Event) :
    (runTrace initState events).outstandingPrefetchUrls_.length ≤
      OUTSTANDING_REQUESTS_ALLOWED := by
  suffices h : ∀ (evs : List Event) (s : State),
      s.outstandingPrefetchUrls_.length ≤ OUTSTANDING_REQUESTS_ALLOWED →
      (runTrace s evs).outstandingPrefetchUrls_.length ≤
        OUTSTANDING_REQUESTS_ALLOWED by
    exact h events initState (by simp [initState])
  intro evs
  induction evs with
  | nil => intro s h; exact h
  | cons ev rest ih =>
      intro s h
      exact ih (step s ev) (step_outstanding_le ev s h)

/-! ## Characterizations of the dispatch loop and the refill pass -/

theorem bucketAt_nil (i : Nat) : bucketAt [] i = [] := by
  cases i <;> rfl

theorem bucketAt_cons_zero (b : List Entry) (rest : Buckets) :
    bucketAt (b :: rest) 0 = b := rfl

theorem bucketAt_cons_succ (b : List Entry) (rest : Buckets) (i : Nat) :
    bucketAt (b :: rest) (i + 1) = bucketAt rest i := rfl

theorem fetchDependency_components (s : State) (e : Entry) (p : Int) :
    (fetchDependency s e p).dependencies_ = s.dependencies_ ∧
    (fetchDependency s e p).queuedPrefetches_ = s.queuedPrefetches_ ∧
    (fetchDependency s e p).requestedURLs_ = s.requestedURLs_ ∧
    (fetchDependency s e p).curFetchPriority_ = s.curFetchPriority_ ∧
    (fetchDependency s e p).nextRid = s.nextRid ∧
    (fetchDependency s e p).navigatedToDst_ = s.navigatedToDst_ ∧
    (fetchDependency s e p).lpUrl = s.lpUrl ∧
    (fetchDependency s e p).timeTracker = s.timeTracker ∧
    (fetchDependency s e p).initializedContentScript_ =
      s.initializedContentScript_ ∧
    (fetchDependency s e p).didInit_ = s.didInit_ ∧
    (fetchDependency s e p).ghost =
      s.ghost ++ [handledGhost s.requestedURLs_ e] := by
  by_cases h : e.res.url ∈ s.requestedURLs_ <;>
    simp [fetchDependency, handledGhost, h]

theorem dispatchGo_spec (q : List Entry) : ∀ s : State,
    s.queuedPrefetches_ = q →
    ∃ k, k ≤ q.length ∧
      (dispatchGo s q).dependencies_ = s.dependencies_ ∧
      (dispatchGo s q).requestedURLs_ = s.requestedURLs_ ∧
      (dispatchGo s q).curFetchPriority_ = s.curFetchPriority_ ∧
      (dispatchGo s q).nextRid = s.nextRid ∧
      (dispatchGo s q).timeTracker = s.timeTracker ∧
      (dispatchGo s q).ghost =
        s.ghost ++ (q.take k).map (handledGhost s.requestedURLs_) ∧
      (dispatchGo s q).queuedPrefetches_ = q.drop k := by
  induction q with
  | nil =>
      intro s hq
      exact ⟨0, by simp [dispatchGo, hq]⟩
  | cons d rest ih =>
      intro s hq
      simp only [dispatchGo]
      split
      · obtain ⟨hdeps, hqueued, hreq, hcur, hrid, hnav, hlp, htr, hics, hdid,
          hghost⟩ := fetchDependency_components
            { s with queuedPrefetches_ := rest } d s.curFetchPriority_
        obtain ⟨k, hk, ih1, ih2, ih3, ih4, ih5, ih6, ih7⟩ :=
          ih (fetchDependency { s with queuedPrefetches_ := rest } d
            s.curFetchPriority_) (by simpa using hqueued)
        refine ⟨k + 1, by simpa using Nat.succ_le_succ hk, ?_, ?_, ?_, ?_, ?_,
          ?_, ?_⟩
        · rw [ih1, hdeps]
        · rw [ih2, hreq]
        · rw [ih3, hcur]
        · rw [ih4, hrid]
        · rw [ih5, htr]
        · rw [ih6, hghost, hreq]
          simp [List.map_cons]
        · rw [ih7]
          simp
      · exact ⟨0, by simp [hq]⟩

theorem findFirstNonEmpty_le (deps : Buckets) : ∀ p : Nat,
    bucketAt deps p ≠ [] →
    ∃ i, findFirstNonEmpty deps = some i ∧ i ≤ p := by
  induction deps with
  | nil => intro p h; exact absurd (bucketAt_nil p) h
  | cons b rest ih =>
      intro p h
      by_cases hb : b.length > 0
      · exact ⟨0, by simp [findFirstNonEmpty, hb], Nat.zero_le p⟩
      · have hbnil : b = [] := by
          cases b
          · rfl
          · simp at hb
        cases p with
        | zero => exact absurd (hbnil ▸ bucketAt_cons_zero b rest) h
        | succ p' =>
            obtain ⟨i, hi, hle⟩ := ih p' (by
              rw [bucketAt_cons_succ] at h
              exact h)
            exact ⟨i + 1, by simp [findFirstNonEmpty, hb, hi],
              Nat.succ_le_succ hle⟩

theorem findFirstNonEmpty_spec (deps : Buckets) : ∀ i : Nat,
    findFirstNonEmpty deps = some i →
    bucketAt deps i ≠ [] ∧ ∀ j < i, bucketAt deps j = [] := by
  induction deps with
  | nil => intro i h; exact absurd h (by simp [findFirstNonEmpty])
  | cons b rest ih =>
      intro i h
      by_cases hb : b.length > 0
      · simp [findFirstNonEmpty, hb] at h
        subst h
        constructor
        · rw [bucketAt_cons_zero]
          intro hnil
          rw [hnil] at hb
          simp at hb
        · intro j hj
          omega
      · simp [findFirstNonEmpty, hb] at h
        obtain ⟨i', hi', rfl⟩ := h
        obtain ⟨h1, h2⟩ := ih i' hi'
        constructor
        · rw [bucketAt_cons_succ]
          exact h1
        · intro j hj
          cases j with
          | zero =>
              rw [bucketAt_cons_zero]
              cases b
              · rfl
              · simp at hb
          | succ j' =>
              rw [bucketAt_cons_succ]
              exact h2 j' (by omega)

theorem hfc_eq_cap (s : State) (u : String)
    (h : OUTSTANDING_REQUESTS_ALLOWED ≤ s.outstandingPrefetchUrls_.length) :
    handleFetchCompleted s u = notify s .info := by
  simp [handleFetchCompleted, notify, h]

theorem hfc_eq_noform (s : State) (u : String)
    (h1 : s.outstandingPrefetchUrls_.length < OUTSTANDING_REQUESTS_ALLOWED)
    (h2 : ¬ (s.outstandingPrefetchUrls_.length = 0 ∧
      findNextPriority s.dependencies_ ≠ -1 ∧
      s.queuedPrefetches_.length = 0)) :
    handleFetchCompleted s u =
      dispatchGo (notify (notify s .info) .info) s.queuedPrefetches_ := by
  simp only [handleFetchCompleted, notify]
  rw [if_neg (by simpa using Nat.not_le.mpr h1), if_neg (by simpa using h2)]

theorem hfc_eq_form (s : State) (u : String) (np : Nat)
    (h1 : s.outstandingPrefetchUrls_.length < OUTSTANDING_REQUESTS_ALLOWED)
    (h2 : s.outstandingPrefetchUrls_.length = 0)
    (h3 : findFirstNonEmpty s.dependencies_ = some np)
    (h4 : s.queuedPrefetches_ = []) :
    handleFetchCompleted s u =
      dispatchGo
        (notify
          { notify s .info with
            dependencies_ := s.dependencies_.set np [],
            queuedPrefetches_ := bucketAt s.dependencies_ np,
            curFetchPriority_ := (np : Int),
            ghost := s.ghost ++
              [.drained np (bucketAt s.dependencies_ np)] } .info)
        (bucketAt s.dependencies_ np) := by
  have hnp : findNextPriority s.dependencies_ = (np : Int) := by
    simp [findNextPriority, h3]
  have hne : findNextPriority s.dependencies_ ≠ -1 := by
    rw [hnp]
    omega
  simp only [handleFetchCompleted, notify]
  rw [if_neg (by simpa using Nat.not_le.mpr h1)]
  rw [if_pos (by exact ⟨by simpa using h2, by simpa using hne,
    by simp [h4]⟩)]
  simp only [hnp, Int.toNat_natCast, h4, List.nil_append]

/-! ## Parser effect lemmas -/

theorem bucketAt_set (deps : Buckets) : ∀ (i j : Nat) (v : List Entry),
    bucketAt (deps.set i v) j =
      if i = j ∧ i < deps.length then v else bucketAt deps j := by
  induction deps with
  | nil => intro i j v; simp [bucketAt_nil, List.set]
  | cons b rest ih =>
      intro i j v
      cases i with
      | zero =>
          cases j with
          | zero => simp [List.set, bucketAt_cons_zero]
          | succ j' => simp [List.set, bucketAt_cons_succ]
      | succ i' =>
          cases j with
          | zero => simp [List.set, bucketAt_cons_zero]
          | succ j' =>
              simp only [List.set, bucketAt_cons_succ, ih i' j' v,
                List.length_cons]
              by_cases hij : i' = j' <;> simp [hij]

theorem parseEntry_effect (deps : Buckets) (nextRid : Nat) (g : List Ghost)
    (element : List Char) (deps' : Buckets) (rid' : Nat) (g' : List Ghost)
    (h : parseEntry deps nextRid g element = some (deps', rid', g')) :
    ∃ tp enew, Entry.rid enew = nextRid ∧ rid' = nextRid + 1 ∧
      deps' = deps.set tp (bucketAt deps tp ++ [enew]) ∧
      g' = g ++ [.appended nextRid tp] ∧ tp < deps.length := by
  unfold parseEntry at h
  cases hp : entryPriority element with
  | none => rw [hp] at h; simp at h
  | some p =>
      rw [hp] at h
      cases ht : entryType element with
      | none => simp [ht] at h
      | some ty =>
          simp only [ht] at h
          split at h
          · rename_i hguard
            rw [Option.some_inj, Prod.mk.injEq, Prod.mk.injEq] at h
            obtain ⟨hd, hr, hg2⟩ := h
            exact ⟨(min p ((NUM_PRIORITIES : Int) - 1)).toNat,
              ⟨nextRid, ⟨String.mk (entryUrl element), String.mk ty⟩⟩,
              rfl, hr.symm, hd.symm, hg2.symm, hguard.2⟩
          · simp at h

theorem parseList_wave (elems : List (List Char)) : ∀ (deps : Buckets)
    (rid : Nat) (g : List Ghost),
    (∀ i, ∃ ext, bucketAt (parseList deps rid g elems).1 i =
      bucketAt deps i ++ ext) ∧
    (∃ tail, (parseList deps rid g elems).2.2.1 = g ++ tail ∧
      ∀ x ∈ tail, ∃ r t, x = Ghost.appended r t) := by
  induction elems with
  | nil =>
      intro deps rid g
      exact ⟨fun i => ⟨[], by simp [parseList]⟩, [], by simp [parseList]⟩
  | cons el rest ih =>
      intro deps rid g
      simp only [parseList]
      cases hpe : parseEntry deps rid g el with
      | none =>
          exact ⟨fun i => ⟨[], by simp⟩, [], by simp⟩
      | some r =>
          obtain ⟨deps', rid', g'⟩ := r
          obtain ⟨tp, enew, hrid, hr, hdeps, hg, htp⟩ :=
            parseEntry_effect deps rid g el deps' rid' g' hpe
          obtain ⟨ihb, tail, ihg, ihtail⟩ := ih deps' rid' g'
          constructor
          · intro i
            obtain ⟨ext, hext⟩ := ihb i
            by_cases hi : tp = i
            · subst hi
              refine ⟨[enew] ++ ext, ?_⟩
              rw [hext, hdeps, bucketAt_set]
              simp [htp]
            · refine ⟨ext, ?_⟩
              rw [hext, hdeps, bucketAt_set]
              simp [hi]
          · refine ⟨[.appended rid tp] ++ tail, ?_, ?_⟩
            · rw [ihg, hg, List.append_assoc]
            · intro x hx
              rcases List.mem_append.mp hx with hx | hx
              · simp at hx
                exact ⟨rid, tp, hx⟩
              · exact ihtail x hx

theorem processHeaders_wave (hs : List Header) : ∀ s : State,
    (∀ i, ∃ ext,
      bucketAt ((processResponseHeaders s hs).1).dependencies_ i =
        bucketAt s.dependencies_ i ++ ext) ∧
    (∃ tail, ((processResponseHeaders s hs).1).ghost = s.ghost ++ tail ∧
      ∀ x ∈ tail, ∃ r t, x = Ghost.appended r t) ∧
    ((processResponseHeaders s hs).1).queuedPrefetches_ =
      s.queuedPrefetches_ := by
  induction hs with
  | nil =>
      intro s
      exact ⟨fun i => ⟨[], by simp [processResponseHeaders]⟩,
        ⟨[], by simp [processResponseHeaders]⟩, rfl⟩
  | cons e rest ih =>
      intro s
      simp only [processResponseHeaders]
      split
      · obtain ⟨pb, ⟨ptail, pg, ptailapp⟩⟩ :=
          parseList_wave (jsSplit e.value.data DELIMETER) s.dependencies_
            s.nextRid s.ghost
        split
        · rename_i hok
          obtain ⟨ihb, ⟨tail2, ihg, ihtail⟩, ihq⟩ := ih _
          refine ⟨?_, ⟨?_, ?_, ?_⟩, ?_⟩
          · intro i
            obtain ⟨ext1, h1⟩ := pb i
            obtain ⟨ext2, h2⟩ := ihb i
            refine ⟨ext1 ++ ext2, ?_⟩
            simp only [parsePrefetchURLs] at h1 h2 ⊢
            rw [h2]
            simp only [h1]
            rw [List.append_assoc]
          · exact ptail ++ tail2
          · simp only [parsePrefetchURLs] at pg ihg ⊢
            rw [ihg]
            simp only [pg]
            rw [List.append_assoc]
          · intro x hx
            rcases List.mem_append.mp hx with hx | hx
            · exact ptailapp x hx
            · exact ihtail x hx
          · simpa using ihq
        · refine ⟨?_, ⟨ptail, ?_, ptailapp⟩, by simp⟩
          · intro i
            obtain ⟨ext1, h1⟩ := pb i
            exact ⟨ext1, by simpa [parsePrefetchURLs] using h1⟩
          · simpa [parsePrefetchURLs] using pg
      · split
        · exact ih _
        · exact ih _

/-! ## Wave-ordering lemmas (C4) -/

theorem handledRid_handledGhost (req : List String) (e : Entry) :
    handledRid (handledGhost req e) = some e.rid := by
  unfold handledGhost
  split <;> rfl

theorem mem_handledRids_of_mem (req : List String) (e : Entry)
    (l : List Entry) (h : e ∈ l) :
    e.rid ∈ handledRids (l.map (handledGhost req)) := by
  unfold handledRids
  exact List.mem_filterMap.mpr ⟨handledGhost req e,
    List.mem_map_of_mem _ h, handledRid_handledGhost req e⟩

theorem handledGhost_ne_drained (req : List String) (e : Entry) (p : Nat)
    (rs : List Entry) : handledGhost req e ≠ .drained p rs := by
  unfold handledGhost
  split <;> simp

theorem handledRids_drained_cons (p : Nat) (rs : List Entry)
    (t : List Ghost) :
    handledRids (Ghost.drained p rs :: t) = handledRids t := rfl

/-- Effect of one refill pass on the location of a tracked bucket or queue
entry `e` sitting in tier `p1 < p2`: the pass appends a ghost segment that
contains no drain of tier `p2`, and afterwards `e` is still bucketed, still
queued, or was popped within the segment. -/
theorem hfc_wave (p1 p2 : Nat) (e : Entry) (s : State) (u : String)
    (hp : p1 < p2)
    (he : e ∈ bucketAt s.dependencies_ p1 ∨ e ∈ s.queuedPrefetches_) :
    ∃ seg, (handleFetchCompleted s u).ghost = s.ghost ++ seg ∧
      (∀ rs, Ghost.drained p2 rs ∉ seg) ∧
      (e ∈ bucketAt (handleFetchCompleted s u).dependencies_ p1 ∨
       e ∈ (handleFetchCompleted s u).queuedPrefetches_ ∨
       e.rid ∈ handledRids seg) := by
  by_cases hcap : OUTSTANDING_REQUESTS_ALLOWED ≤ s.outstandingPrefetchUrls_.length
  · rw [hfc_eq_cap s u hcap]
    refine ⟨[], by simp [notify], by simp, ?_⟩
    rcases he with he | he
    · left; simpa [notify] using he
    · right; left; simpa [notify] using he
  · have h1 : s.outstandingPrefetchUrls_.length < OUTSTANDING_REQUESTS_ALLOWED :=
      Nat.not_le.mp hcap
    by_cases hform : s.outstandingPrefetchUrls_.length = 0 ∧
        findNextPriority s.dependencies_ ≠ -1 ∧
        s.queuedPrefetches_.length = 0
    · obtain ⟨hz, hne, hqlen⟩ := hform
      have hq : s.queuedPrefetches_ = [] := List.length_eq_zero.mp hqlen
      cases hffne : findFirstNonEmpty s.dependencies_ with
      | none => exact absurd (by simp [findNextPriority, hffne]) hne
      | some np =>
          have heb : e ∈ bucketAt s.dependencies_ p1 := by
            rcases he with he | he
            · exact he
            · rw [hq] at he
              simp at he
          have hnple : np ≤ p1 := by
            obtain ⟨i, hi, hle⟩ := findFirstNonEmpty_le s.dependencies_ p1
              (List.ne_nil_of_mem heb)
            rw [hffne] at hi
            exact (Option.some_inj.mp hi) ▸ hle
          rw [hfc_eq_form s u np h1 hz hffne hq]
          obtain ⟨k, hk, gdeps, greq, gcur, grid, gtr, gghost, gqueued⟩ :=
            dispatchGo_spec (bucketAt s.dependencies_ np)
              (notify
                { notify s .info with
                  dependencies_ := s.dependencies_.set np [],
                  queuedPrefetches_ := bucketAt s.dependencies_ np,
                  curFetchPriority_ := (np : Int),
                  ghost := s.ghost ++
                    [.drained np (bucketAt s.dependencies_ np)] } .info)
              (by simp [notify])
          refine ⟨Ghost.drained np (bucketAt s.dependencies_ np) ::
            ((bucketAt s.dependencies_ np).take k).map
              (handledGhost s.requestedURLs_), ?_, ?_, ?_⟩
          · rw [gghost]
            simp [notify]
          · intro rs hmem
            rcases List.mem_cons.mp hmem with hmem | hmem
            · have : np = p2 := by
                injection hmem.symm
              omega
            · obtain ⟨b, _, hb⟩ := List.mem_map.mp hmem
              exact handledGhost_ne_drained s.requestedURLs_ b p2 rs hb
          · by_cases hnp1 : np = p1
            · subst hnp1
              have hsplit := List.take_append_drop k (bucketAt s.dependencies_ np)
              rw [← hsplit] at heb
              rcases List.mem_append.mp heb with hin | hin
              · right; right
                rw [handledRids_drained_cons]
                exact mem_handledRids_of_mem s.requestedURLs_ e _ hin
              · right; left
                rw [gqueued]
                exact hin
            · left
              rw [gdeps]
              simp only [notify]
              have hcnd : ¬ (np = p1 ∧ np < s.dependencies_.length) :=
                fun hc => hnp1 hc.1
              rw [bucketAt_set, if_neg hcnd]
              exact heb
    · rw [hfc_eq_noform s u h1 hform]
      obtain ⟨k, hk, gdeps, greq, gcur, grid, gtr, gghost, gqueued⟩ :=
        dispatchGo_spec s.queuedPrefetches_
          (notify (notify s .info) .info) (by simp [notify])
      refine ⟨(s.queuedPrefetches_.take k).map
        (handledGhost s.requestedURLs_), ?_, ?_, ?_⟩
      · rw [gghost]
        simp [notify]
      · intro rs hmem
        obtain ⟨b, _, hb⟩ := List.mem_map.mp hmem
        exact handledGhost_ne_drained s.requestedURLs_ b p2 rs hb
      · rcases he with he | he
        · left
          rw [gdeps]
          simpa [notify] using he
        · have hsplit := List.take_append_drop k s.queuedPrefetches_
          rw [← hsplit] at he
          rcases List.mem_append.mp he with hin | hin
          · right; right
            exact mem_handledRids_of_mem s.requestedURLs_ e _ hin
          · right; left
            rw [gqueued]
            exact hin

/-- The ghost log only ever grows (single refill pass). -/
theorem hfc_ghost_mono (s : State) (u : String) :
    ∃ seg, (handleFetchCompleted s u).ghost = s.ghost ++ seg := by
  by_cases hcap : OUTSTANDING_REQUESTS_ALLOWED ≤ s.outstandingPrefetchUrls_.length
  · rw [hfc_eq_cap s u hcap]
    exact ⟨[], by simp [notify]⟩
  · have h1 : s.outstandingPrefetchUrls_.length < OUTSTANDING_REQUESTS_ALLOWED :=
      Nat.not_le.mp hcap
    by_cases hform : s.outstandingPrefetchUrls_.length = 0 ∧
        findNextPriority s.dependencies_ ≠ -1 ∧
        s.queuedPrefetches_.length = 0
    · obtain ⟨hz, hne, hqlen⟩ := hform
      have hq : s.queuedPrefetches_ = [] := List.length_eq_zero.mp hqlen
      cases hffne : findFirstNonEmpty s.dependencies_ with
      | none => exact absurd (by simp [findNextPriority, hffne]) hne
      | some np =>
          rw [hfc_eq_form s u np h1 hz hffne hq]
          obtain ⟨k, hk, gdeps, greq, gcur, grid, gtr, gghost, gqueued⟩ :=
            dispatchGo_spec (bucketAt s.dependencies_ np)
              (notify
                { notify s .info with
                  dependencies_ := s.dependencies_.set np [],
                  queuedPrefetches_ := bucketAt s.dependencies_ np,
                  curFetchPriority_ := (np : Int),
                  ghost := s.ghost ++
                    [.drained np (bucketAt s.dependencies_ np)] } .info)
              (by simp [notify])
          refine ⟨Ghost.drained np (bucketAt s.dependencies_ np) ::
            ((bucketAt s.dependencies_ np).take k).map
              (handledGhost s.requestedURLs_), ?_⟩
          rw [gghost]
          simp [notify]
    · rw [hfc_eq_noform s u h1 hform]
      obtain ⟨k, hk, gdeps, greq, gcur, grid, gtr, gghost, gqueued⟩ :=
        dispatchGo_spec s.queuedPrefetches_
          (notify (notify s .info) .info) (by simp [notify])
      refine ⟨(s.queuedPrefetches_.take k).map
        (handledGhost s.requestedURLs_), ?_⟩
      rw [gghost]
      simp [notify]

/-- The ghost log only ever grows (single event). -/
theorem step_ghost_mono (s : State) (ev : Event) :
    ∃ seg, (step s ev).ghost = s.ghost ++ seg := by
  cases ev with
  | sendHeaders url requestId ts hs =>
      refine ⟨[], ?_⟩
      simp only [step, onSendHeaders, notify]
      split <;> simp
  | headersReceived url hs =>
      obtain ⟨_, ⟨tail, htail, _⟩, _⟩ := processHeaders_wave hs (notify s .info)
      exact ⟨tail, by simpa [step, onHeadersReceived, notify] using htail⟩
  | fetchSucceeded url requestId ts =>
      obtain ⟨seg, hseg⟩ := hfc_ghost_mono
        { notify s .info with
          outstandingPrefetchUrls_ :=
            (notify s .info).outstandingPrefetchUrls_.erase url } url
      refine ⟨seg, ?_⟩
      simp only [step, onFetchSucceed, onFetchCompleted, notify] at hseg ⊢
      simpa [notify] using hseg
  | errorOccurred url requestId ts =>
      obtain ⟨seg, hseg⟩ := hfc_ghost_mono
        { notify s .info with
          outstandingPrefetchUrls_ :=
            (notify s .info).outstandingPrefetchUrls_.erase url } url
      refine ⟨seg, ?_⟩
      simp only [step, onErrorOccurred, onFetchCompleted, notify] at hseg ⊢
      simpa [notify] using hseg
  | contentScriptInit =>
      simp only [step, onContentScriptInit]
      split
      · obtain ⟨seg, hseg⟩ := hfc_ghost_mono s "INIT"
        exact ⟨seg, by simpa using hseg⟩
      · exact ⟨[], by simp⟩
  | start =>
      refine ⟨[], ?_⟩
      simp only [step, run, notify]
      split <;> simp

theorem onFetchCompleted_ghost (s : State) (url requestId : String)
    (ts : Int) :
    (onFetchCompleted s url requestId ts).ghost =
      (handleFetchCompleted
        { s with outstandingPrefetchUrls_ :=
            s.outstandingPrefetchUrls_.erase url } url).ghost := by
  simp [onFetchCompleted, notify]

theorem onFetchCompleted_deps (s : State) (url requestId : String)
    (ts : Int) :
    (onFetchCompleted s url requestId ts).dependencies_ =
      (handleFetchCompleted
        { s with outstandingPrefetchUrls_ :=
            s.outstandingPrefetchUrls_.erase url } url).dependencies_ := by
  simp [onFetchCompleted, notify]

theorem onFetchCompleted_queued (s : State) (url requestId : String)
    (ts : Int) :
    (onFetchCompleted s url requestId ts).queuedPrefetches_ =
      (handleFetchCompleted
        { s with outstandingPrefetchUrls_ :=
            s.outstandingPrefetchUrls_.erase url } url).queuedPrefetches_ := by
  simp [onFetchCompleted, notify]

/-- Effect of one event on the location of a tracked entry of tier
`p1 < p2`: the appended ghost segment never drains tier `p2`, and the entry
is still bucketed, still queued, or was popped inside the segment. -/
theorem step_wave (p1 p2 : Nat) (e : Entry) (s : State) (ev : Event)
    (hp : p1 < p2)
    (he : e ∈ bucketAt s.dependencies_ p1 ∨ e ∈ s.queuedPrefetches_) :
    ∃ seg, (step s ev).ghost = s.ghost ++ seg ∧
      (∀ rs, Ghost.drained p2 rs ∉ seg) ∧
      (e ∈ bucketAt (step s ev).dependencies_ p1 ∨
       e ∈ (step s ev).queuedPrefetches_ ∨
       e.rid ∈ handledRids seg) := by
  cases ev with
  | sendHeaders url requestId ts hs =>
      have hdeps : (step s (.sendHeaders url requestId ts hs)).dependencies_ =
          s.dependencies_ := by
        simp only [step, onSendHeaders, notify]
        split <;> simp
      have hqueued :
          (step s (.sendHeaders url requestId ts hs)).queuedPrefetches_ =
            s.queuedPrefetches_ := by
        simp only [step, onSendHeaders, notify]
        split <;> simp
      refine ⟨[], ?_, by simp, ?_⟩
      · simp only [step, onSendHeaders, notify]
        split <;> simp
      · rcases he with he | he
        · exact Or.inl (hdeps ▸ he)
        · exact Or.inr (Or.inl (hqueued ▸ he))
  | headersReceived url hs =>
      obtain ⟨hb, ⟨tail, htail, happ⟩, hq⟩ :=
        processHeaders_wave hs (notify s .info)
      refine ⟨tail, ?_, ?_, ?_⟩
      · simpa [step, onHeadersReceived, notify] using htail
      · intro rs hm
        obtain ⟨r, t, hx⟩ := happ _ hm
        exact Ghost.noConfusion hx
      · rcases he with he | he
        · left
          obtain ⟨ext, hext⟩ := hb p1
          have hdeps :
              bucketAt (step s (.headersReceived url hs)).dependencies_ p1 =
                bucketAt (notify s .info).dependencies_ p1 ++ ext := by
            simpa [step, onHeadersReceived] using hext
          rw [hdeps]
          exact List.mem_append_left _ (by simpa [notify] using he)
        · right; left
          have hqq : (step s (.headersReceived url hs)).queuedPrefetches_ =
              s.queuedPrefetches_ := by
            simpa [step, onHeadersReceived, notify] using hq
          exact hqq ▸ he
  | fetchSucceeded url requestId ts =>
      have he1 : e ∈ bucketAt
          ({ notify s .info with outstandingPrefetchUrls_ :=
              (notify s .info).outstandingPrefetchUrls_.erase url } :
            State).dependencies_ p1 ∨
          e ∈ ({ notify s .info with outstandingPrefetchUrls_ :=
              (notify s .info).outstandingPrefetchUrls_.erase url } :
            State).queuedPrefetches_ := by
        rcases he with he | he
        · left; simpa [notify] using he
        · right; simpa [notify] using he
      obtain ⟨seg, hg, hnd, hcase⟩ := hfc_wave p1 p2 e _ url hp he1
      refine ⟨seg, ?_, hnd, ?_⟩
      · have := onFetchCompleted_ghost (notify s .info) url requestId ts
        simp only [step, onFetchSucceed]
        rw [this]
        rw [show (handleFetchCompleted { notify s .info with
            outstandingPrefetchUrls_ :=
              (notify s .info).outstandingPrefetchUrls_.erase url }
            url).ghost = _ from hg]
        simp [notify]
      · rcases hcase with hc | hc | hc
        · left
          have := onFetchCompleted_deps (notify s .info) url requestId ts
          simp only [step, onFetchSucceed]
          rw [this]
          exact hc
        · right; left
          have := onFetchCompleted_queued (notify s .info) url requestId ts
          simp only [step, onFetchSucceed]
          rw [this]
          exact hc
        · exact Or.inr (Or.inr hc)
  | errorOccurred url requestId ts =>
      have he1 : e ∈ bucketAt
          ({ notify s .info with outstandingPrefetchUrls_ :=
              (notify s .info).outstandingPrefetchUrls_.erase url } :
            State).dependencies_ p1 ∨
          e ∈ ({ notify s .info with outstandingPrefetchUrls_ :=
              (notify s .info).outstandingPrefetchUrls_.erase url } :
            State).queuedPrefetches_ := by
        rcases he with he | he
        · left; simpa [notify] using he
        · right; simpa [notify] using he
      obtain ⟨seg, hg, hnd, hcase⟩ := hfc_wave p1 p2 e _ url hp he1
      refine ⟨seg, ?_, hnd, ?_⟩
      · have := onFetchCompleted_ghost (notify s .info) url requestId ts
        simp only [step, onErrorOccurred]
        rw [this]
        rw [show (handleFetchCompleted { notify s .info with
            outstandingPrefetchUrls_ :=
              (notify s .info).outstandingPrefetchUrls_.erase url }
            url).ghost = _ from hg]
        simp [notify]
      · rcases hcase with hc | hc | hc
        · left
          have := onFetchCompleted_deps (notify s .info) url requestId ts
          simp only [step, onErrorOccurred]
          rw [this]
          exact hc
        · right; left
          have := onFetchCompleted_queued (notify s .info) url requestId ts
          simp only [step, onErrorOccurred]
          rw [this]
          exact hc
        · exact Or.inr (Or.inr hc)
  | contentScriptInit =>
      by_cases hinit : s.initializedContentScript_
      · refine ⟨[], ?_, by simp, ?_⟩
        · simp [step, onContentScriptInit, hinit]
        · rcases he with he | he
          · left; simpa [step, onContentScriptInit, hinit] using he
          · right; left; simpa [step, onContentScriptInit, hinit] using he
      · obtain ⟨seg, hg, hnd, hcase⟩ := hfc_wave p1 p2 e s "INIT" hp he
        refine ⟨seg, ?_, hnd, ?_⟩
        · simpa [step, onContentScriptInit, hinit] using hg
        · rcases hcase with hc | hc | hc
          · left; simpa [step, onContentScriptInit, hinit] using hc
          · right; left
            simpa [step, onContentScriptInit, hinit] using hc
          · exact Or.inr (Or.inr hc)
  | start =>
      have hdeps : (step s .start).dependencies_ = s.dependencies_ := by
        simp only [step, run, notify]
        split <;> simp
      have hqueued : (step s .start).queuedPrefetches_ =
          s.queuedPrefetches_ := by
        simp only [step, run, notify]
        split <;> simp
      refine ⟨[], ?_, by simp, ?_⟩
      · simp only [step, run, notify]
        split <;> simp
      · rcases he with he | he
        · exact Or.inl (hdeps ▸ he)
        · exact Or.inr (Or.inl (hqueued ▸ he))

/-- The ghost log only ever grows (whole trace). -/
theorem runTrace_ghost_mono (evs : List Event) : ∀ s : State,
    ∃ seg, (runTrace s evs).ghost = s.ghost ++ seg := by
  induction evs with
  | nil => intro s; exact ⟨[], by simp [runTrace]⟩
  | cons ev rest ih =>
      intro s
      obtain ⟨seg1, h1⟩ := step_ghost_mono s ev
      obtain ⟨seg2, h2⟩ := ih (step s ev)
      refine ⟨seg1 ++ seg2, ?_⟩
      show (runTrace (step s ev) rest).ghost = _
      rw [h2, h1, List.append_assoc]

theorem wave_combine (e : Entry) (p2 : Nat) (seg1 seg2 : List Ghost)
    (hnd1 : ∀ rs, Ghost.drained p2 rs ∉ seg1)
    (hprop : ∀ (j : Nat) (rs : List Entry),
      seg2[j]? = some (Ghost.drained p2 rs) →
      ∃ i gh, i < j ∧ seg2[i]? = some gh ∧ handledRid gh = some e.rid) :
    ∀ (j : Nat) (rs : List Entry),
      (seg1 ++ seg2)[j]? = some (Ghost.drained p2 rs) →
      ∃ i gh, i < j ∧ (seg1 ++ seg2)[i]? = some gh ∧
        handledRid gh = some e.rid := by
  intro j rs hj
  by_cases hjlt : j < seg1.length
  · rw [List.getElem?_append_left hjlt] at hj
    exact absurd (List.getElem?_mem hj) (hnd1 rs)
  · have hjge : seg1.length ≤ j := Nat.le_of_not_lt hjlt
    rw [List.getElem?_append_right hjge] at hj
    obtain ⟨i, gh, hilt, hget, hrid⟩ := hprop _ rs hj
    refine ⟨seg1.length + i, gh, by omega, ?_, hrid⟩
    rw [List.getElem?_append_right (by omega)]
    simpa using hget

/-- Trace version of the wave lemma: once `e` sits in tier `p1 < p2` (or in
the batch queue), every later drain of tier `p2` is preceded, within the
ghost segment the remaining events append, by a pop of `e`. -/
theorem trace_wave (p1 p2 : Nat) (e : Entry) (hp : p1 < p2) :
    ∀ (evs : List Event) (s : State),
    e ∈ bucketAt s.dependencies_ p1 ∨ e ∈ s.queuedPrefetches_ →
    ∃ seg, (runTrace s evs).ghost = s.ghost ++ seg ∧
      ∀ (j : Nat) (rs : List Entry),
        seg[j]? = some (Ghost.drained p2 rs) →
        ∃ i gh, i < j ∧ seg[i]? = some gh ∧ handledRid gh = some e.rid := by
  intro evs
  induction evs with
  | nil =>
      intro s he
      exact ⟨[], by simp [runTrace], by simp⟩
  | cons ev rest ih =>
      intro s he
      obtain ⟨seg1, hg1, hnd1, hcase⟩ := step_wave p1 p2 e s ev hp he
      have hstep : runTrace s (ev :: rest) = runTrace (step s ev) rest := rfl
      rcases hcase with hc | hc | hc
      · obtain ⟨seg2, hg2, hprop⟩ := ih (step s ev) (Or.inl hc)
        exact ⟨seg1 ++ seg2,
          by rw [hstep, hg2, hg1, List.append_assoc],
          wave_combine e p2 seg1 seg2 hnd1 hprop⟩
      · obtain ⟨seg2, hg2, hprop⟩ := ih (step s ev) (Or.inr hc)
        exact ⟨seg1 ++ seg2,
          by rw [hstep, hg2, hg1, List.append_assoc],
          wave_combine e p2 seg1 seg2 hnd1 hprop⟩
      · obtain ⟨seg2, hg2⟩ := runTrace_ghost_mono rest (step s ev)
        refine ⟨seg1 ++ seg2,
          by rw [hstep, hg2, hg1, List.append_assoc], ?_⟩
        intro j rs hj
        obtain ⟨gh, hghmem, hghrid⟩ := List.mem_filterMap.mp hc
        obtain ⟨i, hi⟩ := List.getElem?_of_mem hghmem
        have hilt : i < seg1.length := by
          by_contra hni
          rw [List.getElem?_eq_none (Nat.le_of_not_lt hni)] at hi
          exact Option.noConfusion hi
        have hjge : seg1.length ≤ j := by
          by_contra hnj
          rw [List.getElem?_append_left (Nat.lt_of_not_le hnj)] at hj
          exact absurd (List.getElem?_mem hj) (hnd1 rs)
        refine ⟨i, gh, Nat.lt_of_lt_of_le hilt hjge, ?_, hghrid⟩
        rw [List.getElem?_append_left hilt]
        exact hi

theorem bucketAt_ge (deps : Buckets) (i : Nat) (h : deps.length ≤ i) :
    bucketAt deps i = [] :=
  List.getD_eq_default _ _ h

theorem bucketAt_ne_nil_lt (deps : Buckets) (i : Nat)
    (h : bucketAt deps i ≠ []) : i < deps.length := by
  by_contra hn
  exact h (bucketAt_ge deps i (Nat.le_of_not_lt hn))

/-- Every drain recorded by one refill pass happened under the
batch-formation guard: empty outstanding set, empty batch queue, and the
drained tier is the lowest-indexed non-empty tier, drained in full. -/
theorem hfc_drain_spec (t : State) (u : String) (tail : List Ghost)
    (htail : (handleFetchCompleted t u).ghost = t.ghost ++ tail) :
    ∀ (j np : Nat) (rs : List Entry),
      tail[j]? = some (Ghost.drained np rs) →
      t.outstandingPrefetchUrls_ = [] ∧ t.queuedPrefetches_ = [] ∧
      findFirstNonEmpty t.dependencies_ = some np ∧
      rs = bucketAt t.dependencies_ np ∧ rs ≠ [] ∧
      (∀ q < np, bucketAt t.dependencies_ q = []) ∧
      bucketAt (handleFetchCompleted t u).dependencies_ np = [] := by
  intro j np rs hj
  by_cases hcap : OUTSTANDING_REQUESTS_ALLOWED ≤ t.outstandingPrefetchUrls_.length
  · rw [hfc_eq_cap t u hcap] at htail
    have htnil : tail = [] := by
      have h2 : t.ghost ++ [] = t.ghost ++ tail := by
        simpa [notify] using htail
      exact (List.append_cancel_left h2).symm
    subst htnil
    simp at hj
  · have h1 : t.outstandingPrefetchUrls_.length < OUTSTANDING_REQUESTS_ALLOWED :=
      Nat.not_le.mp hcap
    by_cases hform : t.outstandingPrefetchUrls_.length = 0 ∧
        findNextPriority t.dependencies_ ≠ -1 ∧
        t.queuedPrefetches_.length = 0
    · obtain ⟨hz, hne, hqlen⟩ := hform
      have hq : t.queuedPrefetches_ = [] := List.length_eq_zero.mp hqlen
      cases hffne : findFirstNonEmpty t.dependencies_ with
      | none => exact absurd (by simp [findNextPriority, hffne]) hne
      | some np' =>
          have hrw := hfc_eq_form t u np' h1 hz hffne hq
          obtain ⟨k, hk, gdeps, greq, gcur, grid, gtr, gghost, gqueued⟩ :=
            dispatchGo_spec (bucketAt t.dependencies_ np')
              (notify
                { notify t .info with
                  dependencies_ := t.dependencies_.set np' [],
                  queuedPrefetches_ := bucketAt t.dependencies_ np',
                  curFetchPriority_ := (np' : Int),
                  ghost := t.ghost ++
                    [.drained np' (bucketAt t.dependencies_ np')] } .info)
              (by simp [notify])
          have htail' : tail = Ghost.drained np' (bucketAt t.dependencies_ np') ::
              ((bucketAt t.dependencies_ np').take k).map
                (handledGhost t.requestedURLs_) := by
            have hg2 : t.ghost ++ tail =
                t.ghost ++ (Ghost.drained np' (bucketAt t.dependencies_ np') ::
                  ((bucketAt t.dependencies_ np').take k).map
                    (handledGhost t.requestedURLs_)) := by
              rw [← htail, hrw, gghost]
              simp [notify]
            exact List.append_cancel_left hg2
          subst htail'
          have hspec := findFirstNonEmpty_spec t.dependencies_ np' hffne
          have hnp : np = np' ∧ rs = bucketAt t.dependencies_ np' := by
            cases j with
            | zero =>
                rw [List.getElem?_cons_zero, Option.some_inj] at hj
                rw [Ghost.drained.injEq] at hj
                exact ⟨hj.1.symm, hj.2.symm⟩
            | succ j' =>
                rw [List.getElem?_cons_succ] at hj
                have hmem : Ghost.drained np rs ∈
                    ((bucketAt t.dependencies_ np').take k).map
                      (handledGhost t.requestedURLs_) :=
                  List.getElem?_mem hj
                obtain ⟨b, _, hb⟩ := List.mem_map.mp hmem
                exact absurd hb (handledGhost_ne_drained _ b np rs)
          obtain ⟨rfl, hrs⟩ := hnp
          have hlt : np < t.dependencies_.length :=
            bucketAt_ne_nil_lt t.dependencies_ np hspec.1
          refine ⟨?_, ?_, ?_, ?_, ?_, ?_, ?_⟩
          · exact List.length_eq_zero.mp hz
          · exact hq
          · rfl
          · exact hrs
          · rw [hrs]; exact hspec.1
          · exact hspec.2
          · rw [hrw, gdeps]
            simp only [notify]
            rw [bucketAt_set, if_pos ⟨rfl, hlt⟩]
    · rw [hfc_eq_noform t u h1 hform] at htail
      obtain ⟨k, hk, gdeps, greq, gcur, grid, gtr, gghost, gqueued⟩ :=
        dispatchGo_spec t.queuedPrefetches_
          (notify (notify t .info) .info) (by simp [notify])
      have htail' : tail = (t.queuedPrefetches_.take k).map
          (handledGhost t.requestedURLs_) := by
        have hg2 : t.ghost ++ tail =
            t.ghost ++ (t.queuedPrefetches_.take k).map
              (handledGhost t.requestedURLs_) := by
          rw [← htail, gghost]
          simp [notify]
        exact List.append_cancel_left hg2
      subst htail'
      have hmem : Ghost.drained np rs ∈ (t.queuedPrefetches_.take k).map
          (handledGhost t.requestedURLs_) := List.getElem?_mem hj
      obtain ⟨b, _, hb⟩ := List.mem_map.mp hmem
      exact absurd hb (handledGhost_ne_drained _ b np rs)

/-- **C4** (amended).  Wave ordering across tiers: once resource `e` sits in
tier `p1` and tier `p2 > p1` is also non-empty, any later drain of tier
`p2` into the batch queue is preceded by the pop of `e` for dispatch — `e`
is added to the outstanding set at that pop unless its url was already
browser-requested, in which case the pop suppresses it as a late prefetch.
Moreover batch formation runs only when the outstanding set is empty, the
batch queue is empty and some tier is non-empty, and it then drains the
entire lowest-indexed non-empty tier. -/
theorem wave_ordering (pre suf : List Event) (p1 p2 : Nat) (e : Entry)
    (hp : p1 < p2)
    (he : e ∈ bucketAt (runTrace initState pre).dependencies_ p1)
    (hne : bucketAt (runTrace initState pre).dependencies_ p2 ≠ []) :
    (∃ seg, (runTrace initState (pre ++ suf)).ghost =
        (runTrace initState pre).ghost ++ seg ∧
      ∀ (j : Nat) (rs : List Entry),
        seg[j]? = some (Ghost.drained p2 rs) →
        ∃ i gh, i < j ∧ seg[i]? = some gh ∧
          handledRid gh = some e.rid) ∧
    (∀ (t : State) (u : String) (tail : List Ghost),
      (handleFetchCompleted t u).ghost = t.ghost ++ tail →
      ∀ (j np : Nat) (rs : List Entry),
        tail[j]? = some (Ghost.drained np rs) →
        t.outstandingPrefetchUrls_ = [] ∧ t.queuedPrefetches_ = [] ∧
        findFirstNonEmpty t.dependencies_ = some np ∧
        rs = bucketAt t.dependencies_ np ∧ rs ≠ [] ∧
        (∀ q < np, bucketAt t.dependencies_ q = []) ∧
        bucketAt (handleFetchCompleted t u).dependencies_ np = []) := by
  constructor
  · have hsplit : runTrace initState (pre ++ suf) =
        runTrace (runTrace initState pre) suf := by
      simp [runTrace, List.foldl_append]
    rw [hsplit]
    exact trace_wave p1 p2 e hp suf (runTrace initState pre) (Or.inl he)
  · exact hfc_drain_spec

/-- Counterexample to C4 as stated: after `c4Pre` both tier 0 (resource
`a`, arrival id 0) and tier 5 (resource `c`, arrival id 1) are non-empty,
yet `a` was browser-requested first, so its dispatch is suppressed
(LATE_PREFETCH) and `a` is never added to the outstanding set — the ghost
log ends with tier 5 drained and only `c` dispatched.  Hence it is false
that every resource of the lower tier is dispatched (added to
OutstandingSet) before any resource of the higher tier is drained. -/
theorem wave_ordering_counterexample :
    (⟨0, ⟨"a", "script"⟩⟩ : Entry) ∈
      bucketAt (runTrace initState c4Pre).dependencies_ 0 ∧
    bucketAt (runTrace initState c4Pre).dependencies_ 5 ≠ [] ∧
    (runTrace initState (c4Pre ++ c4Suf)).ghost =
      [.appended 0 0, .appended 1 5,
       .drained 0 [⟨0, ⟨"a", "script"⟩⟩], .suppressed 0 "a",
       .drained 5 [⟨1, ⟨"c", "image"⟩⟩], .dispatched 1 "c"] ∧
    dispatchedRids (runTrace initState (c4Pre ++ c4Suf)).ghost = [1] := by
  refine ⟨by decide, by decide, by decide, by decide⟩

/-- Witness for C4 (amended) on the concrete trace `c4Pre ++ c4Suf`. -/
theorem wave_ordering_witness :
    (∃ seg, (runTrace initState (c4Pre ++ c4Suf)).ghost =
        (runTrace initState c4Pre).ghost ++ seg ∧
      ∀ (j : Nat) (rs : List Entry),
        seg[j]? = some (Ghost.drained 5 rs) →
        ∃ i gh, i < j ∧ seg[i]? = some gh ∧
          handledRid gh = some (0 : Nat)) ∧
    (∀ (t : State) (u : String) (tail : List Ghost),
      (handleFetchCompleted t u).ghost = t.ghost ++ tail →
      ∀ (j np : Nat) (rs : List Entry),
        tail[j]? = some (Ghost.drained np rs) →
        t.outstandingPrefetchUrls_ = [] ∧ t.queuedPrefetches_ = [] ∧
        findFirstNonEmpty t.dependencies_ = some np ∧
        rs = bucketAt t.dependencies_ np ∧ rs ≠ [] ∧
        (∀ q < np, bucketAt t.dependencies_ q = []) ∧
        bucketAt (handleFetchCompleted t u).dependencies_ np = []) :=
  wave_ordering c4Pre c4Suf 0 5 ⟨0, ⟨"a", "script"⟩⟩ (by decide)
    (by decide) (by decide)

/-! ## FIFO within a tier (C5): arrival-id bookkeeping -/

theorem bucketsRids_nil : bucketsRids [] = [] := rfl

theorem bucketsRids_cons (b : List Entry) (rest : Buckets) :
    bucketsRids (b :: rest) = b.map Entry.rid ++ bucketsRids rest := by
  simp [bucketsRids]

theorem mem_bucketsRids (deps : Buckets) (r : Nat) :
    r ∈ bucketsRids deps ↔ ∃ q, ∃ e ∈ bucketAt deps q, e.rid = r := by
  induction deps with
  | nil =>
      simp [bucketsRids_nil, bucketAt_nil]
  | cons b rest ih =>
      rw [bucketsRids_cons]
      constructor
      · intro h
        rcases List.mem_append.mp h with h | h
        · obtain ⟨e, he, hr⟩ := List.mem_map.mp h
          exact ⟨0, e, by rwa [bucketAt_cons_zero], hr⟩
        · obtain ⟨q, e, he, hr⟩ := ih.mp h
          exact ⟨q + 1, e, by rwa [bucketAt_cons_succ], hr⟩
      · rintro ⟨q, e, he, hr⟩
        cases q with
        | zero =>
            rw [bucketAt_cons_zero] at he
            exact List.mem_append_left _ (List.mem_map.mpr ⟨e, he, hr⟩)
        | succ q' =>
            rw [bucketAt_cons_succ] at he
            exact List.mem_append_right _ (ih.mpr ⟨q', e, he, hr⟩)

theorem bucketsRids_set_append (deps : Buckets) : ∀ (tp : Nat) (enew : Entry),
    tp < deps.length →
    (bucketsRids (deps.set tp (bucketAt deps tp ++ [enew]))).Perm
      (enew.rid :: bucketsRids deps) := by
  induction deps with
  | nil => intro tp enew h; simp at h
  | cons b rest ih =>
      intro tp enew htp
      cases tp with
      | zero =>
          simp only [List.set, bucketAt_cons_zero, bucketsRids_cons,
            List.map_append, List.map_cons, List.map_nil,
            List.singleton_append, List.append_assoc]
          exact List.perm_middle
      | succ tp' =>
          simp only [List.set, bucketAt_cons_succ, bucketsRids_cons]
          have h := ih tp' enew (by simpa using htp)
          exact (h.append_left (b.map Entry.rid)).trans
            List.perm_middle

theorem bucketsRids_extract (deps : Buckets) : ∀ np : Nat,
    np < deps.length →
    (bucketsRids deps).Perm
      ((bucketAt deps np).map Entry.rid ++ bucketsRids (deps.set np [])) := by
  induction deps with
  | nil => intro np h; simp at h
  | cons b rest ih =>
      intro np hnp
      cases np with
      | zero =>
          simp [List.set, bucketAt_cons_zero, bucketsRids_cons]
      | succ np' =>
          simp only [List.set, bucketAt_cons_succ, bucketsRids_cons]
          have h := ih np' (by simpa using hnp)
          refine (h.append_left (b.map Entry.rid)).trans ?_
          rw [← List.append_assoc, ← List.append_assoc]
          exact (List.perm_append_comm).append_right _

theorem handledRids_append (g1 g2 : List Ghost) :
    handledRids (g1 ++ g2) = handledRids g1 ++ handledRids g2 := by
  simp [handledRids]

theorem handledRids_appended (g : List Ghost) (r tp : Nat) :
    handledRids (g ++ [Ghost.appended r tp]) = handledRids g := by
  simp [handledRids, handledRid]

theorem handledRids_drained (g : List Ghost) (np : Nat) (rs : List Entry) :
    handledRids (g ++ [Ghost.drained np rs]) = handledRids g := by
  simp [handledRids, handledRid]

theorem handledRids_handled (g : List Ghost) (x : Ghost) (r : Nat)
    (hx : handledRid x = some r) :
    handledRids (g ++ [x]) = handledRids g ++ [r] := by
  simp [handledRids, hx]

theorem appended_mem_append_iff (g : List Ghost) (x : Ghost) (r q : Nat)
    (hx : handledRid x = some r ∨ (∃ np rs, x = Ghost.drained np rs)) :
    ∀ r' q', (Ghost.appended r' q' ∈ g ++ [x] ↔ Ghost.appended r' q' ∈ g) := by
  intro r' q'
  rw [List.mem_append]
  constructor
  · intro h
    rcases h with h | h
    · exact h
    · simp at h
      rcases hx with hx | ⟨np, rs, rfl⟩
      · rw [← h] at hx
        simp [handledRid] at hx
      · exact Ghost.noConfusion h
  · exact Or.inl

theorem ownedRids_append_perm (deps : Buckets) (queued : List Entry)
    (g : List Ghost) (tp : Nat) (enew : Entry) (htp : tp < deps.length) :
    (ownedRids (deps.set tp (bucketAt deps tp ++ [enew])) queued
      (g ++ [Ghost.appended enew.rid tp])).Perm
      (enew.rid :: ownedRids deps queued g) := by
  unfold ownedRids
  rw [handledRids_appended]
  exact ((bucketsRids_set_append deps tp enew htp).append_right
    (queued.map Entry.rid)).append_right (handledRids g)

theorem ownedRids_drain_perm (deps : Buckets) (g : List Ghost) (np : Nat)
    (hnp : np < deps.length) :
    (ownedRids (deps.set np []) (bucketAt deps np)
      (g ++ [Ghost.drained np (bucketAt deps np)])).Perm
      (ownedRids deps [] g) := by
  unfold ownedRids
  rw [handledRids_drained]
  simp only [List.map_nil, List.append_nil]
  exact ((List.perm_append_comm).trans
    (bucketsRids_extract deps np hnp).symm).append_right (handledRids g)

theorem ownedRids_pop_perm (deps : Buckets) (d : Entry) (rest : List Entry)
    (g : List Ghost) (x : Ghost) (hx : handledRid x = some d.rid) :
    (ownedRids deps rest (g ++ [x])).Perm
      (ownedRids deps (d :: rest) g) := by
  unfold ownedRids
  rw [handledRids_handled g x d.rid hx]
  have h1 : ((bucketsRids deps ++ rest.map Entry.rid) ++
      (handledRids g ++ [d.rid])).Perm
      ((bucketsRids deps ++ rest.map Entry.rid) ++
        (d.rid :: handledRids g)) :=
    (List.perm_append_singleton d.rid (handledRids g)).append_left _
  refine h1.trans ?_
  refine List.perm_middle.trans ?_
  have h2 : (bucketsRids deps ++ d.rid :: rest.map Entry.rid).Perm
      (d.rid :: (bucketsRids deps ++ rest.map Entry.rid)) :=
    List.perm_middle
  exact (h2.symm).append_right (handledRids g)

theorem WFq_append (deps : Buckets) (queued : List Entry) (g : List Ghost)
    (n : Nat) (tp : Nat) (enew : Entry) (hrid : enew.rid = n)
    (htp : tp < deps.length) (hwf : WFq deps queued g n) :
    WFq (deps.set tp (bucketAt deps tp ++ [enew])) queued
      (g ++ [.appended n tp]) (n + 1) := by
  have hperm : (ownedRids (deps.set tp (bucketAt deps tp ++ [enew])) queued
      (g ++ [.appended n tp])).Perm (n :: ownedRids deps queued g) := by
    have h := ownedRids_append_perm deps queued g tp enew htp
    rwa [hrid] at h
  constructor
  · rw [hperm.nodup_iff, List.nodup_cons]
    exact ⟨fun h => absurd (hwf.ridsLt n h) (lt_irrefl n), hwf.ridsNodup⟩
  · intro r hr
    rcases List.mem_cons.mp (hperm.mem_iff.mp hr) with h | h
    · omega
    · have := hwf.ridsLt r h
      omega
  · intro r hr
    by_cases hn : r = n
    · exact hperm.mem_iff.mpr (hn ▸ List.mem_cons_self n _)
    · exact hperm.mem_iff.mpr
        (List.mem_cons_of_mem n (hwf.allBelow r (by omega)))
  · intro q e he
    rw [bucketAt_set] at he
    by_cases hc : tp = q ∧ tp < deps.length
    · rw [if_pos hc] at he
      rcases List.mem_append.mp he with he | he
      · exact List.mem_append_left _ (hc.1 ▸ hwf.located tp e he)
      · simp at he
        subst he
        rw [hrid, hc.1]
        simp
    · rw [if_neg hc] at he
      exact List.mem_append_left _ (hwf.located q e he)
  · intro r q q' h1 h2
    rcases List.mem_append.mp h1 with h1 | h1 <;>
      rcases List.mem_append.mp h2 with h2 | h2
    · exact hwf.appendedOnce r q q' h1 h2
    · simp at h2
      exact absurd (hwf.appendedLt r q h1) (by omega)
    · simp at h1
      exact absurd (hwf.appendedLt r q' h2) (by omega)
    · simp at h1 h2
      rw [h1.2, h2.2]
  · intro r q h
    rcases List.mem_append.mp h with h | h
    · have := hwf.appendedLt r q h
      omega
    · simp at h
      omega

theorem WFq_drain (deps : Buckets) (g : List Ghost) (n np : Nat)
    (hnp : np < deps.length) (hwf : WFq deps [] g n) :
    WFq (deps.set np []) (bucketAt deps np)
      (g ++ [.drained np (bucketAt deps np)]) n := by
  have hperm := ownedRids_drain_perm deps g np hnp
  have happ := appended_mem_append_iff g (Ghost.drained np (bucketAt deps np))
    0 0 (Or.inr ⟨np, bucketAt deps np, rfl⟩)
  constructor
  · exact hperm.nodup_iff.mpr hwf.ridsNodup
  · intro r hr
    exact hwf.ridsLt r (hperm.mem_iff.mp hr)
  · intro r hr
    exact hperm.mem_iff.mpr (hwf.allBelow r hr)
  · intro q e he
    rw [bucketAt_set] at he
    by_cases hc : np = q ∧ np < deps.length
    · rw [if_pos hc] at he
      simp at he
    · rw [if_neg hc] at he
      exact List.mem_append_left _ (hwf.located q e he)
  · intro r q q' h1 h2
    exact hwf.appendedOnce r q q' ((happ r q).mp h1) ((happ r q').mp h2)
  · intro r q h
    exact hwf.appendedLt r q ((happ r q).mp h)

theorem WFq_pop (deps : Buckets) (d : Entry) (rest : List Entry)
    (g : List Ghost) (n : Nat) (x : Ghost)
    (hx : handledRid x = some d.rid) (hwf : WFq deps (d :: rest) g n) :
    WFq deps rest (g ++ [x]) n := by
  have hperm := ownedRids_pop_perm deps d rest g x hx
  have happ := appended_mem_append_iff g x d.rid 0 (Or.inl hx)
  constructor
  · exact hperm.nodup_iff.mpr hwf.ridsNodup
  · intro r hr
    exact hwf.ridsLt r (hperm.mem_iff.mp hr)
  · intro r hr
    exact hperm.mem_iff.mpr (hwf.allBelow r hr)
  · intro q e he
    exact List.mem_append_left _ (hwf.located q e he)
  · intro r q q' h1 h2
    exact hwf.appendedOnce r q q' ((happ r q).mp h1) ((happ r q').mp h2)
  · intro r q h
    exact hwf.appendedLt r q ((happ r q).mp h)

theorem owned_disjoint_h (deps : Buckets) (queued : List Entry)
    (g : List Ghost) (n : Nat) (hwf : WFq deps queued g n) (r : Nat)
    (hmem : r ∈ bucketsRids deps ∨ r ∈ queued.map Entry.rid) :
    r ∉ handledRids g := by
  have hnd := hwf.ridsNodup
  unfold ownedRids at hnd
  rw [List.nodup_append] at hnd
  exact fun hh => hnd.2.2 (List.mem_append.mpr hmem) hh

theorem ridBefore_append (r1 r2 : Nat) (l ext : List Entry)
    (h : ridBefore r1 r2 l) : ridBefore r1 r2 (l ++ ext) := by
  obtain ⟨l1, e1, l2, e2, l3, heq, h1, h2⟩ := h
  exact ⟨l1, e1, l2, e2, l3 ++ ext, by rw [heq]; simp, h1, h2⟩

theorem ridBefore_new (r1 r2 : Nat) (l : List Entry) (e1 enew : Entry)
    (h1 : e1 ∈ l) (hr1 : e1.rid = r1) (hr2 : enew.rid = r2) :
    ridBefore r1 r2 (l ++ [enew]) := by
  obtain ⟨s, t, rfl⟩ := List.append_of_mem h1
  exact ⟨s, e1, t, enew, [], by simp, hr1, hr2⟩

theorem ridBefore_nil (r1 r2 : Nat) (h : ridBefore r1 r2 []) : False := by
  obtain ⟨l1, e1, l2, e2, l3, heq, h1, h2⟩ := h
  simp at heq

theorem ridBefore_mem_right (r1 r2 : Nat) (l : List Entry)
    (h : ridBefore r1 r2 l) : ∃ e ∈ l, e.rid = r2 := by
  obtain ⟨l1, e1, l2, e2, l3, heq, h1, h2⟩ := h
  exact ⟨e2, by rw [heq]; simp, h2⟩

theorem Fifoq_append (p r1 r2 : Nat) (hr : r1 < r2) (deps : Buckets)
    (queued : List Entry) (g : List Ghost) (n : Nat) (tp : Nat)
    (enew : Entry) (hrid : enew.rid = n) (htp : tp < deps.length)
    (hwf : WFq deps queued g n) (hf : Fifoq p r1 r2 deps queued g n) :
    Fifoq p r1 r2 (deps.set tp (bucketAt deps tp ++ [enew])) queued
      (g ++ [.appended n tp]) (n + 1) := by
  unfold Fifoq at hf ⊢
  rcases hf with h | h | h | h | h | h
  · by_cases h2n : r2 = n
    · subst h2n
      by_cases htpp : tp = p
      · subst htpp
        have hr1mem : r1 ∈ ownedRids deps queued g :=
          hwf.allBelow r1 (by omega)
        unfold ownedRids at hr1mem
        rcases List.mem_append.mp hr1mem with hbq | hh
        · rcases List.mem_append.mp hbq with hb | hq
          · obtain ⟨q, e1, he1, he1r⟩ := (mem_bucketsRids deps r1).mp hb
            by_cases hqp : q = tp
            · subst hqp
              right; left
              rw [bucketAt_set, if_pos ⟨rfl, htp⟩]
              exact ridBefore_new r1 r2 _ e1 enew he1 he1r hrid
            · right; right; right; right; right
              have hloc := hwf.located q e1 he1
              rw [he1r] at hloc
              exact ⟨q, hqp, Or.inl (List.mem_append_left _ hloc)⟩
          · obtain ⟨e1, he1, he1r⟩ := List.mem_map.mp hq
            right; right; left
            refine ⟨⟨e1, he1, he1r⟩, ⟨enew, ?_, hrid⟩⟩
            rw [bucketAt_set, if_pos ⟨rfl, htp⟩]
            exact List.mem_append_right _ (by simp)
        · right; right; right; right; left
          refine ⟨g, [.appended r2 tp], rfl, hh, ?_⟩
          intro hmem
          have : r2 ∈ ownedRids deps queued g := by
            unfold ownedRids
            exact List.mem_append_right _ hmem
          exact absurd (hwf.ridsLt r2 this) (by omega)
      · right; right; right; right; right
        exact ⟨tp, htpp, Or.inr (List.mem_append_right _ (by simp))⟩
    · left
      omega
  · right; left
    rw [bucketAt_set]
    by_cases htpp : tp = p
    · subst htpp
      rw [if_pos ⟨rfl, htp⟩]
      exact ridBefore_append r1 r2 _ _ h
    · rw [if_neg (fun hc => htpp hc.1)]
      exact h
  · obtain ⟨⟨e1, he1, he1r⟩, ⟨e2, he2, he2r⟩⟩ := h
    right; right; left
    refine ⟨⟨e1, he1, he1r⟩, ⟨e2, ?_, he2r⟩⟩
    rw [bucketAt_set]
    by_cases htpp : tp = p
    · subst htpp
      rw [if_pos ⟨rfl, htp⟩]
      exact List.mem_append_left _ he2
    · rw [if_neg (fun hc => htpp hc.1)]
      exact he2
  · right; right; right; left
    exact h
  · obtain ⟨g1, g2, rfl, hm, hnm⟩ := h
    right; right; right; right; left
    exact ⟨g1, g2 ++ [.appended n tp], by rw [List.append_assoc], hm, hnm⟩
  · obtain ⟨q, hq, hor⟩ := h
    right; right; right; right; right
    exact ⟨q, hq, hor.imp (List.mem_append_left _) (List.mem_append_left _)⟩

theorem Fifoq_drain (p r1 r2 : Nat) (deps : Buckets) (g : List Ghost)
    (n np : Nat) (hnp : np < deps.length) (hwf : WFq deps [] g n)
    (hf : Fifoq p r1 r2 deps [] g n) :
    Fifoq p r1 r2 (deps.set np []) (bucketAt deps np)
      (g ++ [.drained np (bucketAt deps np)]) n := by
  unfold Fifoq at hf ⊢
  rcases hf with h | h | h | h | h | h
  · left; exact h
  · by_cases hnpp : np = p
    · subst hnpp
      right; right; right; left
      exact h
    · right; left
      rw [bucketAt_set, if_neg (fun hc => hnpp hc.1)]
      exact h
  · obtain ⟨⟨e1, he1, _⟩, _⟩ := h
    exact absurd he1 (List.not_mem_nil e1)
  · exact absurd h (fun hh => ridBefore_nil r1 r2 hh)
  · obtain ⟨g1, g2, rfl, hm, hnm⟩ := h
    right; right; right; right; left
    exact ⟨g1, g2 ++ [.drained np (bucketAt deps np)],
      by rw [List.append_assoc], hm, hnm⟩
  · obtain ⟨q, hq, hor⟩ := h
    right; right; right; right; right
    exact ⟨q, hq, hor.imp (List.mem_append_left _) (List.mem_append_left _)⟩

theorem Fifoq_pop (p r1 r2 : Nat) (hr : r1 < r2) (deps : Buckets)
    (d : Entry) (rest : List Entry) (g : List Ghost) (n : Nat) (x : Ghost)
    (hx : handledRid x = some d.rid) (hwf : WFq deps (d :: rest) g n)
    (hf : Fifoq p r1 r2 deps (d :: rest) g n) :
    Fifoq p r1 r2 deps rest (g ++ [x]) n := by
  unfold Fifoq at hf ⊢
  rcases hf with h | h | h | h | h | h
  · left; exact h
  · right; left; exact h
  · obtain ⟨⟨e1, he1, he1r⟩, ⟨e2, he2, he2r⟩⟩ := h
    rcases List.mem_cons.mp he1 with heq | he1'
    · have hdr : d.rid = r1 := by rw [← heq, he1r]
      right; right; right; right; left
      refine ⟨g ++ [x], [], by simp, ?_, ?_⟩
      · rw [handledRids_handled g x d.rid hx, hdr]
        exact List.mem_append_right _ (by simp)
      · rw [handledRids_handled g x d.rid hx]
        intro hmem
        rcases List.mem_append.mp hmem with hm | hm
        · have hb : r2 ∈ bucketsRids deps :=
            (mem_bucketsRids deps r2).mpr ⟨p, e2, he2, he2r⟩
          exact owned_disjoint_h deps (d :: rest) g n hwf r2 (Or.inl hb) hm
        · simp at hm
          omega
    · right; right; left
      exact ⟨⟨e1, he1', he1r⟩, ⟨e2, he2, he2r⟩⟩
  · obtain ⟨l1, e1, l2, e2, l3, heq, h1, h2⟩ := h
    cases l1 with
    | nil =>
        simp only [List.nil_append] at heq
        injection heq with hhd htl
        have hdr : d.rid = r1 := by rw [hhd]; exact h1
        right; right; right; right; left
        refine ⟨g ++ [x], [], by simp, ?_, ?_⟩
        · rw [handledRids_handled g x d.rid hx, hdr]
          exact List.mem_append_right _ (by simp)
        · rw [handledRids_handled g x d.rid hx]
          intro hmem
          rcases List.mem_append.mp hmem with hm | hm
          · have hq : r2 ∈ (d :: rest).map Entry.rid := by
              refine List.mem_map.mpr ⟨e2, ?_, h2⟩
              rw [htl]
              simp
            exact owned_disjoint_h deps (d :: rest) g n hwf r2 (Or.inr hq) hm
          · simp at hm
            omega
    | cons d' l1' =>
        simp only [List.cons_append] at heq
        injection heq with hhd htl
        right; right; right; left
        exact ⟨l1', e1, l2, e2, l3, htl, h1, h2⟩
  · obtain ⟨g1, g2, rfl, hm, hnm⟩ := h
    right; right; right; right; left
    exact ⟨g1, g2 ++ [x], by rw [List.append_assoc], hm, hnm⟩
  · obtain ⟨q, hq, hor⟩ := h
    right; right; right; right; right
    exact ⟨q, hq, hor.imp (List.mem_append_left _) (List.mem_append_left _)⟩

theorem Invq_pops (p r1 r2 : Nat) (hr : r1 < r2) (req : List String) :
    ∀ (k : Nat) (q : List Entry) (deps : Buckets) (g : List Ghost) (n : Nat),
    WFq deps q g n → Fifoq p r1 r2 deps q g n →
    WFq deps (q.drop k) (g ++ (q.take k).map (handledGhost req)) n ∧
    Fifoq p r1 r2 deps (q.drop k)
      (g ++ (q.take k).map (handledGhost req)) n := by
  intro k
  induction k with
  | zero =>
      intro q deps g n hw hf
      constructor
      · simpa using hw
      · simpa using hf
  | succ k' ih =>
      intro q deps g n hw hf
      cases q with
      | nil =>
          constructor
          · simpa using hw
          · simpa using hf
      | cons d rest =>
          have hx : handledRid (handledGhost req d) = some d.rid :=
            handledRid_handledGhost req d
          have hw' := WFq_pop deps d rest g n _ hx hw
          have hf' := Fifoq_pop p r1 r2 hr deps d rest g n _ hx hw hf
          have hrec := ih rest deps (g ++ [handledGhost req d]) n hw' hf'
          constructor
          · have := hrec.1
            simpa [List.append_assoc] using this
          · have := hrec.2
            simpa [List.append_assoc] using this

theorem Invq_parseList (p r1 r2 : Nat) (hr : r1 < r2)
    (elems : List (List Char)) :
    ∀ (deps : Buckets) (rid : Nat) (g : List Ghost) (queued : List Entry),
    WFq deps queued g rid → Fifoq p r1 r2 deps queued g rid →
    WFq (parseList deps rid g elems).1 queued
      (parseList deps rid g elems).2.2.1 (parseList deps rid g elems).2.1 ∧
    Fifoq p r1 r2 (parseList deps rid g elems).1 queued
      (parseList deps rid g elems).2.2.1
      (parseList deps rid g elems).2.1 := by
  induction elems with
  | nil =>
      intro deps rid g queued hw hf
      exact ⟨hw, hf⟩
  | cons el rest ih =>
      intro deps rid g queued hw hf
      simp only [parseList]
      cases hpe : parseEntry deps rid g el with
      | none => exact ⟨hw, hf⟩
      | some r =>
          obtain ⟨deps', rid', g'⟩ := r
          obtain ⟨tp, enew, hrid, hridn, hdeps, hg, htp⟩ :=
            parseEntry_effect deps rid g el deps' rid' g' hpe
          have hw' : WFq deps' queued g' rid' := by
            rw [hdeps, hg, hridn]
            exact WFq_append deps queued g rid tp enew hrid htp hw
          have hf' : Fifoq p r1 r2 deps' queued g' rid' := by
            rw [hdeps, hg, hridn]
            exact Fifoq_append p r1 r2 hr deps queued g rid tp enew hrid htp
              hw hf
          exact ih deps' rid' g' queued hw' hf'

theorem processHeaders_Inv (p r1 r2 : Nat) (hr : r1 < r2)
    (hs : List Header) :
    ∀ s : State, WF s → FifoInv p r1 r2 s →
    WF (processResponseHeaders s hs).1 ∧
    FifoInv p r1 r2 (processResponseHeaders s hs).1 := by
  induction hs with
  | nil => intro s hw hf; exact ⟨hw, hf⟩
  | cons e rest ih =>
      intro s hw hf
      simp only [processResponseHeaders]
      split
      · have h := Invq_parseList p r1 r2 hr (jsSplit e.value.data DELIMETER)
          s.dependencies_ s.nextRid s.ghost s.queuedPrefetches_ hw hf
        split
        · exact ih _ h.1 h.2
        · exact ⟨h.1, h.2⟩
      · split
        · exact ih _ hw hf
        · exact ih _ hw hf

theorem hfc_Inv (p r1 r2 : Nat) (hr : r1 < r2) (s : State) (u : String)
    (hw : WF s) (hf : FifoInv p r1 r2 s) :
    WF (handleFetchCompleted s u) ∧
    FifoInv p r1 r2 (handleFetchCompleted s u) := by
  by_cases hcap : OUTSTANDING_REQUESTS_ALLOWED ≤ s.outstandingPrefetchUrls_.length
  · rw [hfc_eq_cap s u hcap]
    exact ⟨hw, hf⟩
  · have h1 : s.outstandingPrefetchUrls_.length < OUTSTANDING_REQUESTS_ALLOWED :=
      Nat.not_le.mp hcap
    by_cases hform : s.outstandingPrefetchUrls_.length = 0 ∧
        findNextPriority s.dependencies_ ≠ -1 ∧
        s.queuedPrefetches_.length = 0
    · obtain ⟨hz, hne, hqlen⟩ := hform
      have hq : s.queuedPrefetches_ = [] := List.length_eq_zero.mp hqlen
      cases hffne : findFirstNonEmpty s.dependencies_ with
      | none => exact absurd (by simp [findNextPriority, hffne]) hne
      | some np =>
          have hnplt : np < s.dependencies_.length :=
            bucketAt_ne_nil_lt s.dependencies_ np
              (findFirstNonEmpty_spec s.dependencies_ np hffne).1
          rw [hfc_eq_form s u np h1 hz hffne hq]
          obtain ⟨k, hk, gdeps, greq, gcur, grid, gtr, gghost, gqueued⟩ :=
            dispatchGo_spec (bucketAt s.dependencies_ np)
              (notify
                { notify s .info with
                  dependencies_ := s.dependencies_.set np [],
                  queuedPrefetches_ := bucketAt s.dependencies_ np,
                  curFetchPriority_ := (np : Int),
                  ghost := s.ghost ++
                    [.drained np (bucketAt s.dependencies_ np)] } .info)
              (by simp [notify])
          have hw0 : WFq s.dependencies_ [] s.ghost s.nextRid := by
            have := hw
            unfold WF at this
            rwa [hq] at this
          have hf0 : Fifoq p r1 r2 s.dependencies_ [] s.ghost s.nextRid := by
            have := hf
            unfold FifoInv at this
            rwa [hq] at this
          have hwd := WFq_drain s.dependencies_ s.ghost s.nextRid np hnplt hw0
          have hfd := Fifoq_drain p r1 r2 s.dependencies_ s.ghost s.nextRid
            np hnplt hw0 hf0
          have hpops := Invq_pops p r1 r2 hr s.requestedURLs_ k
            (bucketAt s.dependencies_ np) (s.dependencies_.set np [])
            (s.ghost ++ [.drained np (bucketAt s.dependencies_ np)])
            s.nextRid hwd hfd
          constructor
          · unfold WF
            rw [gdeps, gqueued, grid, gghost]
            simp only [notify]
            exact hpops.1
          · unfold FifoInv
            rw [gdeps, gqueued, grid, gghost]
            simp only [notify]
            exact hpops.2
    · rw [hfc_eq_noform s u h1 hform]
      obtain ⟨k, hk, gdeps, greq, gcur, grid, gtr, gghost, gqueued⟩ :=
        dispatchGo_spec s.queuedPrefetches_
          (notify (notify s .info) .info) (by simp [notify])
      have hpops := Invq_pops p r1 r2 hr s.requestedURLs_ k
        s.queuedPrefetches_ s.dependencies_ s.ghost s.nextRid hw hf
      constructor
      · unfold WF
        rw [gdeps, gqueued, grid, gghost]
        simp only [notify]
        exact hpops.1
      · unfold FifoInv
        rw [gdeps, gqueued, grid, gghost]
        simp only [notify]
        exact hpops.2

theorem onFetchCompleted_nextRid (s : State) (url requestId : String)
    (ts : Int) :
    (onFetchCompleted s url requestId ts).nextRid =
      (handleFetchCompleted
        { s with outstandingPrefetchUrls_ :=
            s.outstandingPrefetchUrls_.erase url } url).nextRid := by
  simp [onFetchCompleted, notify]

theorem step_Inv (p r1 r2 : Nat) (hr : r1 < r2) (s : State) (ev : Event)
    (hw : WF s) (hf : FifoInv p r1 r2 s) :
    WF (step s ev) ∧ FifoInv p r1 r2 (step s ev) := by
  cases ev with
  | sendHeaders url requestId ts hs =>
      have hd : (step s (.sendHeaders url requestId ts hs)).dependencies_ =
          s.dependencies_ := by
        simp only [step, onSendHeaders, notify]
        split <;> simp
      have hq : (step s (.sendHeaders url requestId ts hs)).queuedPrefetches_ =
          s.queuedPrefetches_ := by
        simp only [step, onSendHeaders, notify]
        split <;> simp
      have hg : (step s (.sendHeaders url requestId ts hs)).ghost = s.ghost := by
        simp only [step, onSendHeaders, notify]
        split <;> simp
      have hn : (step s (.sendHeaders url requestId ts hs)).nextRid =
          s.nextRid := by
        simp only [step, onSendHeaders, notify]
        split <;> simp
      constructor
      · unfold WF
        rw [hd, hq, hg, hn]
        exact hw
      · unfold FifoInv
        rw [hd, hq, hg, hn]
        exact hf
  | headersReceived url hs =>
      exact processHeaders_Inv p r1 r2 hr hs (notify s .info) hw hf
  | fetchSucceeded url requestId ts =>
      have h := hfc_Inv p r1 r2 hr
        { notify s .info with outstandingPrefetchUrls_ :=
            (notify s .info).outstandingPrefetchUrls_.erase url } url hw hf
      constructor
      · unfold WF
        simp only [step, onFetchSucceed]
        rw [onFetchCompleted_deps, onFetchCompleted_queued,
          onFetchCompleted_ghost, onFetchCompleted_nextRid]
        exact h.1
      · unfold FifoInv
        simp only [step, onFetchSucceed]
        rw [onFetchCompleted_deps, onFetchCompleted_queued,
          onFetchCompleted_ghost, onFetchCompleted_nextRid]
        exact h.2
  | errorOccurred url requestId ts =>
      have h := hfc_Inv p r1 r2 hr
        { notify s .info with outstandingPrefetchUrls_ :=
            (notify s .info).outstandingPrefetchUrls_.erase url } url hw hf
      constructor
      · unfold WF
        simp only [step, onErrorOccurred]
        rw [onFetchCompleted_deps, onFetchCompleted_queued,
          onFetchCompleted_ghost, onFetchCompleted_nextRid]
        exact h.1
      · unfold FifoInv
        simp only [step, onErrorOccurred]
        rw [onFetchCompleted_deps, onFetchCompleted_queued,
          onFetchCompleted_ghost, onFetchCompleted_nextRid]
        exact h.2
  | contentScriptInit =>
      simp only [step, onContentScriptInit]
      split
      · exact hfc_Inv p r1 r2 hr s "INIT" hw hf
      · exact ⟨hw, hf⟩
  | start =>
      have hd : (step s .start).dependencies_ = s.dependencies_ := by
        simp only [step, run, notify]
        split <;> simp
      have hq : (step s .start).queuedPrefetches_ = s.queuedPrefetches_ := by
        simp only [step, run, notify]
        split <;> simp
      have hg : (step s .start).ghost = s.ghost := by
        simp only [step, run, notify]
        split <;> simp
      have hn : (step s .start).nextRid = s.nextRid := by
        simp only [step, run, notify]
        split <;> simp
      constructor
      · unfold WF
        rw [hd, hq, hg, hn]
        exact hw
      · unfold FifoInv
        rw [hd, hq, hg, hn]
        exact hf

theorem runTrace_Inv (p r1 r2 : Nat) (hr : r1 < r2) (evs : List Event) :
    ∀ s : State, WF s → FifoInv p r1 r2 s →
    WF (runTrace s evs) ∧ FifoInv p r1 r2 (runTrace s evs) := by
  induction evs with
  | nil => intro s hw hf; exact ⟨hw, hf⟩
  | cons ev rest ih =>
      intro s hw hf
      have h := step_Inv p r1 r2 hr s ev hw hf
      exact ih (step s ev) h.1 h.2

theorem bucketAt_replicate (n q : Nat) :
    bucketAt (List.replicate n ([] : List Entry)) q = [] := by
  induction n generalizing q with
  | zero => exact bucketAt_nil q
  | succ n' ih =>
      cases q with
      | zero => rfl
      | succ q' => exact ih q'

theorem bucketsRids_replicate (n : Nat) :
    bucketsRids (List.replicate n ([] : List Entry)) = [] := by
  induction n with
  | zero => rfl
  | succ n' ih =>
      rw [List.replicate_succ, bucketsRids_cons, ih]
      rfl

theorem initState_WF : WF initState := by
  unfold WF initState
  constructor
  · simp [ownedRids, bucketsRids_replicate, handledRids]
  · intro r hrm
    simp [ownedRids, bucketsRids_replicate, handledRids] at hrm
  · intro r hlt
    simp at hlt
  · intro q e he
    rw [bucketAt_replicate] at he
    exact absurd he (List.not_mem_nil e)
  · intro r q q' hm
    exact absurd hm (List.not_mem_nil _)
  · intro r q hm
    exact absurd hm (List.not_mem_nil _)

theorem initState_Fifo (p r1 r2 : Nat) : FifoInv p r1 r2 initState := by
  unfold FifoInv Fifoq initState
  left
  simp

theorem fifo_conclude (s : State) (p r1 r2 : Nat) (hr : r1 < r2)
    (hw : WF s) (hf : FifoInv p r1 r2 s)
    (ha1 : Ghost.appended r1 p ∈ s.ghost)
    (ha2 : Ghost.appended r2 p ∈ s.ghost)
    (j1 j2 : Nat) (u1 u2 : String)
    (h1 : s.ghost[j1]? = some (.dispatched r1 u1))
    (h2 : s.ghost[j2]? = some (.dispatched r2 u2)) : j1 < j2 := by
  have hh2 : r2 ∈ handledRids s.ghost :=
    List.mem_filterMap.mpr ⟨.dispatched r2 u2, List.getElem?_mem h2, rfl⟩
  have hh2owned : r2 ∈ ownedRids s.dependencies_ s.queuedPrefetches_
      s.ghost := by
    unfold ownedRids
    exact List.mem_append_right _ hh2
  unfold FifoInv Fifoq at hf
  rcases hf with h | h | h | h | h | h
  · exact absurd (hw.ridsLt r2 hh2owned) (by omega)
  · obtain ⟨e2, he2, he2r⟩ := ridBefore_mem_right r1 r2 _ h
    have hb : r2 ∈ bucketsRids s.dependencies_ :=
      (mem_bucketsRids _ _).mpr ⟨p, e2, he2, he2r⟩
    exact absurd hh2 (owned_disjoint_h _ _ _ _ hw r2 (Or.inl hb))
  · obtain ⟨_, ⟨e2, he2, he2r⟩⟩ := h
    have hb : r2 ∈ bucketsRids s.dependencies_ :=
      (mem_bucketsRids _ _).mpr ⟨p, e2, he2, he2r⟩
    exact absurd hh2 (owned_disjoint_h _ _ _ _ hw r2 (Or.inl hb))
  · obtain ⟨e2, he2, he2r⟩ := ridBefore_mem_right r1 r2 _ h
    have hqm : r2 ∈ s.queuedPrefetches_.map Entry.rid :=
      List.mem_map.mpr ⟨e2, he2, he2r⟩
    exact absurd hh2 (owned_disjoint_h _ _ _ _ hw r2 (Or.inr hqm))
  · obtain ⟨g1, g2, hgeq, hm1, hnm2⟩ := h
    have hj2ge : g1.length ≤ j2 := by
      by_contra hn
      rw [hgeq, List.getElem?_append_left (Nat.lt_of_not_le hn)] at h2
      exact hnm2 (List.mem_filterMap.mpr ⟨_, List.getElem?_mem h2, rfl⟩)
    have hj1lt : j1 < g1.length := by
      by_contra hn
      have hge := Nat.le_of_not_lt hn
      rw [hgeq, List.getElem?_append_right hge] at h1
      have hr1g2 : r1 ∈ handledRids g2 :=
        List.mem_filterMap.mpr ⟨_, List.getElem?_mem h1, rfl⟩
      have hnd : (handledRids s.ghost).Nodup := by
        have hnodup := hw.ridsNodup
        unfold ownedRids at hnodup
        exact (List.nodup_append.mp hnodup).2.1
      rw [hgeq, handledRids_append, List.nodup_append] at hnd
      exact hnd.2.2 hm1 hr1g2
    omega
  · obtain ⟨q, hq, hor⟩ := h
    rcases hor with hx | hx
    · exact absurd (hw.appendedOnce r1 q p hx ha1) hq
    · exact absurd (hw.appendedOnce r2 q p hx ha2) hq

/-- **C5**.  FIFO within a tier: when two resources are appended to the same
priority tier by hint parsing (arrival ids `r1 < r2`, both recorded for tier
`p`), their dispatches — if both ever happen — occur in parse order: the
ghost-log position of `r1`'s dispatch precedes that of `r2`'s. -/
theorem fifo_within_tier (events : List Event) (p r1 r2 j1 j2 : Nat)
    (u1 u2 : String) (hr : r1 < r2)
    (ha1 : Ghost.appended r1 p ∈ (runTrace initState events).ghost)
    (ha2 : Ghost.appended r2 p ∈ (runTrace initState events).ghost)
    (h1 : (runTrace initState events).ghost[j1]? =
      some (.dispatched r1 u1))
    (h2 : (runTrace initState events).ghost[j2]? =
      some (.dispatched r2 u2)) :
    j1 < j2 := by
  have hinv := runTrace_Inv p r1 r2 hr events initState initState_WF
    (initState_Fifo p r1 r2)
  exact fifo_conclude _ p r1 r2 hr hinv.1 hinv.2 ha1 ha2 j1 j2 u1 u2 h1 h2

/-- Witness for C5 on a concrete trace: two tier-3 hints dispatch in parse
order (ghost positions 3 and 4). -/
theorem fifo_within_tier_witness : (3 : Nat) < 4 :=
  fifo_within_tier c5Events 3 0 1 3 4 "a" "b" (by decide) (by decide)
    (by decide) (by decide) (by decide)

end HttpPrefetching
